import Mathlib

/-!
Verification development for the dep-minder traceability checker.

The TypeScript sources (src/parser.ts, src/validate.ts, src/resolution-writer.ts,
src/config.ts) are shallowly embedded below.  Conventions used throughout:

* JavaScript strings are modelled as `List Char` (named `Str`); string literals
  are written as Lean string literals converted with `.data`.
* JavaScript `Map` objects are modelled as association lists in insertion
  order; `Map.set` overwrites in place, `Map.get` returns the first match.
  JavaScript `Set` objects are modelled as deduplicated lists in insertion order.
* The anchored id regexes compiled from config patterns are modelled as boolean
  matcher functions `Str → Bool` (the code only ever calls `.test` on them).
* A JavaScript value that may be `undefined` is modelled as an `Option`.
  In particular `ParsedToken` (src/parser.ts) has no `offset`/`length` fields,
  so reading those properties in `toTokenWithSource` (src/validate.ts) yields
  `undefined`; this is modelled as `none`.
* File system reads are modelled by a function from absolute path to decoded
  text (`decodeFileContents` over the immutable snapshot taken at run start);
  byte-level encoding/BOM handling of src/encoding.ts is below the abstraction
  level of the decoded text and is not modelled.
* `path.resolve(root, rel)` for the relative paths the tool produces is
  modelled as concatenation with a slash; the optional `error_root` relative
  rewriting of issue paths (an I/O presentation concern no claim touches)
  is not modelled.
-/

namespace DepMinder

/-- Text is modelled as a list of characters. -/
abbrev Str := List Char

/-- ASCII letter test, `[A-Za-z]`. -/
def isAsciiLetter (c : Char) : Bool :=
  ('A' ≤ c && c ≤ 'Z') || ('a' ≤ c && c ≤ 'z')

/-- ASCII alphanumeric test, `[A-Za-z0-9]`. -/
def isAsciiAlphaNum (c : Char) : Bool :=
  isAsciiLetter c || ('0' ≤ c && c ≤ '9')

/-- Model of the JS regex `/\s/` character test.  The source only ever meets
ASCII whitespace; the Unicode space classes JS additionally accepts are not
modelled. -/
def isJsWhitespace (c : Char) : Bool :=
  c = ' ' || c = '\t' || c = '\n' || c = '\r' || c = '\x0b' || c = '\x0c'

/-- Port of `isAllowedTokenChar` (src/parser.ts): `/[A-Za-z0-9._-]/`. -/
def isAllowedTokenChar (c : Char) : Bool :=
  isAsciiAlphaNum c || c = '.' || c = '_' || c = '-'

/-- Port of `isAllowedTokenCharWithResolution` (src/parser.ts).  The
`separator` argument may be absent (`undefined`), hence `Option Str`. -/
def isAllowedTokenCharWithResolution (c : Char) (allowResolution : Bool)
    (separator : Option Str) : Bool :=
  match separator with
  | some sep =>
      if allowResolution && sep.length = 1 && sep = [c] then true
      else isAllowedTokenChar c
  | none => isAllowedTokenChar c

/-- Port of `GLOBAL_ID_REGEX` (src/parser.ts):
`/^[A-Za-z](?:[A-Za-z0-9._-]*[A-Za-z0-9])?$/`. -/
def globalIdValid (s : Str) : Bool :=
  match s with
  | [] => false
  | c :: rest =>
      isAsciiLetter c &&
      (match rest.reverse with
       | [] => true
       | lastc :: midRev => isAsciiAlphaNum lastc && midRev.all isAllowedTokenChar)

/-- Whether `pre` is a prefix of `s`, modelling `text.startsWith(pre, 0)`. -/
def strStarts (pre s : Str) : Bool :=
  match pre, s with
  | [], _ => true
  | _ :: _, [] => false
  | p :: ps, c :: cs => p = c && strStarts ps cs

/-- Number of newline characters in a chunk, used to advance the 1-based line
counter exactly as the `advance` helper in `parseLayerFile` does. -/
def countNewlines (s : Str) : Nat :=
  (s.filter (· = '\n')).length

/-- Model of `text.split(/\r?\n/)`: split on `"\r\n"` or `"\n"`; a lone
carriage return stays inside the line. -/
def splitLines : Str → List Str
  | [] => [[]]
  | '\r' :: '\n' :: rest => [] :: splitLines rest
  | '\n' :: rest => [] :: splitLines rest
  | c :: rest =>
      match splitLines rest with
      | [] => [[c]]
      | line :: more => (c :: line) :: more

/-- Model of `String.prototype.trim` restricted to the whitespace the source
meets. -/
def trimStr (s : Str) : Str :=
  ((s.dropWhile isJsWhitespace).reverse.dropWhile isJsWhitespace).reverse

/-- Decimal rendering of a `Nat`, for JS template interpolation of numbers. -/
def natToStr (n : Nat) : Str :=
  (Nat.toDigits 10 n)

/-- Model of `text.slice(start, stop)` for in-range numeric indices. -/
def jsSlice (s : Str) (start stop : Nat) : Str :=
  (s.take stop).drop start

/-- Association-list lookup: first entry with the given key (`Map.get`). -/
def assocLookup {κ α : Type} [DecidableEq κ] (m : List (κ × α)) (k : κ) : Option α :=
  match m with
  | [] => none
  | (k', v) :: rest => if k' = k then some v else assocLookup rest k

/-- Key-membership test on an association list (`Map.has`). -/
def containsKey {κ α : Type} [DecidableEq κ] (m : List (κ × α)) (k : κ) : Bool :=
  match m with
  | [] => false
  | (k', _) :: rest => k' = k || containsKey rest k

/-- Association-list update modelling `Map.set`: overwrite in place if the key
exists, append otherwise. -/
def setAssoc {κ α : Type} [DecidableEq κ] (m : List (κ × α)) (k : κ) (v : α) :
    List (κ × α) :=
  if containsKey m k then
    m.map (fun p => if p.1 = k then (k, v) else p)
  else m ++ [(k, v)]

/-- Functional update of a list at an index; out-of-range indices leave the
list unchanged (the source always indexes within bounds). -/
def updateAt {α : Type} : List α → Nat → (α → α) → List α
  | [], _, _ => []
  | x :: xs, 0, f => f x :: xs
  | x :: xs, n + 1, f => x :: updateAt xs n f

/-! ## src/parser.ts -/

/-- Port of the `Issue` record (src/reporting.ts) as the parser constructs it. -/
structure Issue where
  code : Str
  message : Str
  filePath : Str
  line : Nat
  context : List Str
  level : Str
deriving DecidableEq, Repr

/-- Port of `ParsedToken` (src/parser.ts).  Note that the type has no
`offset`/`length` fields. -/
structure ParsedToken where
  id : Str
  raw : Str
  line : Nat
  resolution : Option Str
deriving DecidableEq, Repr

/-- Port of `ParsedFile` (src/parser.ts). -/
structure ParsedFile where
  definitions : List ParsedToken
  references : List ParsedToken
  issues : List Issue
deriving DecidableEq, Repr

/-- Resolution settings as the parser's `ParserOptions["resolution"]` declares
them, and as the writer consumes them.  The `ResolutionLookup` built by
src/config.ts carries `enabled`, `layerNames` and `aliasToName` but omits the
`separator` field these declared types require; the lookup is modelled here
with the full declared shape. -/
structure ResolutionLookup where
  enabled : Bool
  layerNames : List Str
  aliasToName : List (Str × Str)
  separator : Str

/-- Grouping delimiters as `ParserOptions["grouping"]` declares them.  The
`passthroughPrefix` field of the source is named `passthrough` here. -/
structure GroupingConfig where
  start : Str
  stop : Str
  separator : Str
  passthrough : Option Str

/-- Port of `ParserOptions` (src/parser.ts); regexes are boolean matchers. -/
structure ParserOptions where
  filePath : Str
  text : Str
  layerIdPatterns : List (Str → Bool)
  upstreamIdPatterns : List (Str → Bool)
  resolution : Option ResolutionLookup
  grouping : GroupingConfig

/-- Token context, the `TokenContext` union of the source. -/
inductive TokenContext where
  | definition
  | reference
deriving DecidableEq, Repr

/-- Context flags handed to `handleToken`. -/
structure ContextFlags where
  inQuote : Bool
  inGrouping : Bool

/-- Fuelled scan for `String.indexOf`: each step advances the search index by
one, so fuel `v.length + 1` always suffices. -/
def jsIndexOfGo (v sep : Str) : Nat → Nat → Option Nat
  | 0, _ => none
  | fuel + 1, start =>
      if strStarts sep (v.drop start) then some start
      else if v.length ≤ start then none
      else jsIndexOfGo v sep fuel (start + 1)

/-- First occurrence of `sep` in `v` at an index `≥ start` (`String.indexOf`).
`sep` is nonempty at every call site. -/
def jsIndexOfFrom (v sep : Str) (start : Nat) : Option Nat :=
  jsIndexOfGo v sep (v.length + 1) start

/-- Loop body of `findResolutionSplit` (src/parser.ts): walk successive
occurrences of the separator, fuelled by the string length (each step moves
the search index forward by at least one). -/
def findResolutionSplitGo (value sep : Str) : Nat → Option Nat → Option (Str × Str)
  | _, none => none
  | _, some 0 => none
  | 0, some _ => none
  | fuel + 1, some (i + 1) =>
      let candidate := value.take (i + 1)
      if globalIdValid candidate then
        some (candidate, value.drop (i + 1 + sep.length))
      else
        findResolutionSplitGo value sep fuel (jsIndexOfFrom value sep (i + 1 + sep.length))

/-- Port of `findResolutionSplit` (src/parser.ts): the longest-unscanned first
separator occurrence whose left part passes the global id shape. -/
def findResolutionSplit (value sep : Str) : Option (Str × Str) :=
  if sep = [] then none
  else findResolutionSplitGo value sep (value.length + 1) (jsIndexOfFrom value sep 0)

/-- Port of `resolveResolutionLevel` (src/parser.ts). -/
def resolveResolutionLevel (level : Str) (options : Option ResolutionLookup) :
    Option Str :=
  match options with
  | none => none
  | some opts =>
      if level ∈ opts.layerNames then some level
      else assocLookup opts.aliasToName level

/-- Port of `buildContextSnippet` (src/parser.ts). -/
def buildContextSnippet (lines : List Str) (lineIndex : Nat) : List Str :=
  let start := lineIndex - 1
  let stop := min (lines.length - 1) (lineIndex + 1)
  (lines.take (stop + 1)).drop start

/-- Port of `createIssue` (src/parser.ts); issue `line` is 1-based. -/
def createIssue (code message filePath : Str) (line : Nat) (lines : List Str) :
    Issue :=
  let lineIndex := min (lines.length - 1) (line - 1)
  { code := code, message := message, filePath := filePath, line := line
    context := buildContextSnippet lines lineIndex, level := "error".data }

/-- Port of `matchesAny` (src/parser.ts). -/
def matchesAny (patterns : List (Str → Bool)) (value : Str) : Bool :=
  patterns.any (fun p => p value)

/-- A raw grouping piece together with its resolved 1-based line. -/
structure GroupTok where
  raw : Str
  line : Nat
deriving DecidableEq, Repr

/-- Newlines inside the leading-whitespace part of a segment, port of
`resolveTokenLineFromSegment` applied at `leadingWhitespace`. -/
def leadingNewlines (raw : Str) : Nat :=
  countNewlines (raw.takeWhile isJsWhitespace)

/-- Loop state of `splitGroupingTokens`. -/
structure SplitGroupState where
  lineOffset : Nat
  segmentStartLineOffset : Nat
  segment : Str
  tokens : List GroupTok

/-- Port of the `pushSegment` closure in `splitGroupingTokens`. -/
def pushSegment (startLine : Nat) (st : SplitGroupState) : SplitGroupState :=
  let raw := st.segment
  let trimmed := trimStr raw
  let tokens :=
    if trimmed.length > 0 then
      st.tokens ++ [{ raw := trimmed
                      line := startLine + st.segmentStartLineOffset + leadingNewlines raw }]
    else st.tokens
  { lineOffset := st.lineOffset, segmentStartLineOffset := st.lineOffset
    segment := [], tokens := tokens }

/-- Main loop of `splitGroupingTokens` (src/parser.ts), fuelled: each step
consumes at least one character, so fuel equal to the content length always
suffices. -/
def splitGroupingGo (startLine : Nat) (separator : Str) :
    Nat → Str → SplitGroupState → List GroupTok
  | _, [], st => (pushSegment startLine st).tokens
  | 0, _ :: _, st => (pushSegment startLine st).tokens
  | fuel + 1, c :: rest, st =>
      if separator.length > 0 && strStarts separator (c :: rest) then
        splitGroupingGo startLine separator fuel ((c :: rest).drop separator.length)
          (pushSegment startLine st)
      else
        splitGroupingGo startLine separator fuel rest
          { st with
            segment := st.segment ++ [c]
            lineOffset := st.lineOffset + (if c = '\n' then 1 else 0) }

/-- Port of `splitGroupingTokens` (src/parser.ts). -/
def splitGroupingTokens (content : Str) (startLine : Nat) (separator : Str) :
    List GroupTok :=
  splitGroupingGo startLine separator content.length content
    { lineOffset := 0, segmentStartLineOffset := 0, segment := [], tokens := [] }

/-- Resolution-marker preprocessing inside `handleToken` (src/parser.ts):
returns the possibly-rewritten id, the resolved level, and any issues pushed.
A resolved alias value of `""` is falsy in JS and counts as unresolved. -/
def handleTokenResolution (normalized : Str) (line : Nat)
    (options : ParserOptions) (lines : List Str) (flags : ContextFlags)
    (resolutionLevel : Option Str) : Str × Option Str × List Issue :=
  match options.resolution with
  | some ropts =>
      if ropts.enabled then
        if flags.inQuote || flags.inGrouping then
          match findResolutionSplit normalized ropts.separator with
          | some split =>
              (split.1, none,
               [createIssue "E111".data "ResolutionOnNonDefinition".data
                  options.filePath line lines])
          | none => (normalized, none, [])
        else
          match resolutionLevel with
          | some lvl =>
              (match resolveResolutionLevel lvl ropts with
               | some resolved =>
                   if resolved = [] then
                     (normalized, none,
                      [createIssue "E110".data
                         ("UnknownResolutionLevel: ".data ++ lvl)
                         options.filePath line lines])
                   else (normalized, some resolved, [])
               | none =>
                   (normalized, none,
                    [createIssue "E110".data
                       ("UnknownResolutionLevel: ".data ++ lvl)
                       options.filePath line lines]))
          | none => (normalized, none, [])
      else (normalized, none, [])
  | none => (normalized, none, [])

/-- Port of `handleToken` (src/parser.ts). -/
def handleToken (raw normalized : Str) (line : Nat) (context : TokenContext)
    (options : ParserOptions) (lines : List Str) (output : ParsedFile)
    (flags : ContextFlags) (resolutionLevel : Option Str) : ParsedFile :=
  if raw = [] then output
  else
    let res := handleTokenResolution normalized line options lines flags resolutionLevel
    let normalizedId := res.1
    let resolution := res.2.1
    let output := { output with issues := output.issues ++ res.2.2 }
    let matchesLayer :=
      !options.layerIdPatterns.isEmpty && matchesAny options.layerIdPatterns normalizedId
    let matchesUpstream :=
      !options.upstreamIdPatterns.isEmpty && matchesAny options.upstreamIdPatterns normalizedId
    if !matchesLayer && !matchesUpstream then output
    else if !globalIdValid normalizedId then
      { output with
        issues := output.issues ++
          [createIssue "E020".data ("Bad ID token: ".data ++ raw)
             options.filePath line lines] }
    else if matchesLayer && context = TokenContext.definition then
      { output with
        definitions := output.definitions ++
          [{ id := normalizedId, raw := raw, line := line, resolution := resolution }] }
    else
      { output with
        references := output.references ++
          [{ id := normalizedId, raw := raw, line := line, resolution := resolution }] }

/-- Loop state of `parseLayerFile` (src/parser.ts).  `text` is the unconsumed
suffix of the input.  The source declares `inQuote` but never assigns it, so
it stays `none` throughout; the also-dead `column` counter is not modelled. -/
structure PLoopState where
  text : Str
  line : Nat
  inQuote : Option Char
  inGrouping : Bool
  groupingStartLine : Nat
  groupingBuffer : Str
  tokenBuffer : Str
  tokenLine : Nat
  output : ParsedFile

/-- Port of the `flushToken` closure: flush the pending token through
`handleToken`; the source always passes `inQuote: false, inGrouping: false`. -/
def flushToken (options : ParserOptions) (lines : List Str)
    (st : PLoopState) (context : TokenContext) (resolutionLevel : Option Str) :
    PLoopState :=
  if st.tokenBuffer = [] then st
  else
    { st with
      output := handleToken st.tokenBuffer st.tokenBuffer st.tokenLine context
        options lines st.output { inQuote := false, inGrouping := false }
        resolutionLevel
      tokenBuffer := [] }

/-- Port of the `advance` helper: consume `count` characters, counting
newlines into the 1-based line counter. -/
def advanceBy (st : PLoopState) (count : Nat) : PLoopState :=
  { st with
    text := st.text.drop count
    line := st.line + countNewlines (st.text.take count) }

/-- Processing of a closed grouping: split the buffered content, normalize the
passthrough form, and hand each piece to `handleToken` as a reference.  Port of
the grouping-end branch of `parseLayerFile`. -/
def processGroupingTokens (options : ParserOptions) (lines : List Str)
    (output : ParsedFile) (toks : List GroupTok) : ParsedFile :=
  toks.foldl
    (fun out tok =>
      let original := tok.raw
      match options.grouping.passthrough with
      | some p =>
          if p ≠ [] && strStarts p original then
            let normalized := original.drop p.length
            if trimStr normalized = [] then
              { out with
                issues := out.issues ++
                  [createIssue "E020".data ("Bad ID token: ".data ++ original)
                     options.filePath tok.line lines] }
            else
              handleToken original normalized tok.line TokenContext.reference
                options lines out { inQuote := false, inGrouping := true } none
          else
            handleToken original original tok.line TokenContext.reference
              options lines out { inQuote := false, inGrouping := true } none
      | none =>
          handleToken original original tok.line TokenContext.reference
            options lines out { inQuote := false, inGrouping := true } none)
    output

/-- Shared tail of the default-state loop body: the whitespace/disallowed
flush and the token-accumulation fall-through of `parseLayerFile`. -/
def stepDefaultTail (options : ParserOptions) (lines : List Str)
    (st : PLoopState) (c : Char) : PLoopState :=
  if isJsWhitespace c ||
      !isAllowedTokenCharWithResolution c false
        ((options.resolution).map (fun r => r.separator)) then
    advanceBy (flushToken options lines st TokenContext.definition none) 1
  else
    let st :=
      if st.tokenBuffer.length = 0 then { st with tokenLine := st.line } else st
    advanceBy { st with tokenBuffer := st.tokenBuffer ++ [c] } 1

/-- One iteration of the `while` loop of `parseLayerFile`, assuming
`st.text ≠ []` (on empty text it returns the state unchanged).  The
resolution-separator branch (`options.resolution?.enabled &&
tokenBuffer.length > 0 && separator.length > 0 && startsWith`) is expressed by
matching on `options.resolution` first. -/
def stepOnce (options : ParserOptions) (lines : List Str) (st : PLoopState) :
    PLoopState :=
  let groupingStart := options.grouping.start
  let groupingEnd := options.grouping.stop
  let separator := options.grouping.separator
  match st.text with
  | [] => st
  | c :: _ =>
    if st.inGrouping then
      if groupingEnd.length > 0 && strStarts groupingEnd st.text then
        let toks := splitGroupingTokens st.groupingBuffer st.groupingStartLine separator
        let output :=
          if toks.length = 0 then
            { st.output with
              issues := st.output.issues ++
                [createIssue "E010".data "Malformed grouping".data
                   options.filePath st.groupingStartLine lines] }
          else processGroupingTokens options lines st.output toks
        advanceBy { st with output := output, groupingBuffer := [], inGrouping := false }
          groupingEnd.length
      else
        advanceBy { st with groupingBuffer := st.groupingBuffer ++ [c] } 1
    else
      if groupingStart.length > 0 && strStarts groupingStart st.text then
        let st := flushToken options lines st TokenContext.definition none
        advanceBy
          { st with inGrouping := true, groupingStartLine := st.line, groupingBuffer := [] }
          groupingStart.length
      else if groupingEnd.length > 0 && strStarts groupingEnd st.text then
        let st := flushToken options lines st TokenContext.definition none
        advanceBy
          { st with
            output :=
              { st.output with
                issues := st.output.issues ++
                  [createIssue "E010".data "Malformed grouping".data
                     options.filePath st.line lines] } }
          groupingEnd.length
      else if separator.length > 0 && strStarts separator st.text then
        advanceBy (flushToken options lines st TokenContext.definition none)
          separator.length
      else
        match options.resolution with
        | some r =>
            if r.enabled && st.tokenBuffer.length > 0 &&
                (r.separator.length > 0 && strStarts r.separator st.text) then
              let resolutionLevel :=
                (st.text.drop r.separator.length).takeWhile isAllowedTokenChar
              advanceBy
                (flushToken options lines st TokenContext.definition (some resolutionLevel))
                (r.separator.length + resolutionLevel.length)
            else stepDefaultTail options lines st c
        | none => stepDefaultTail options lines st c

/-- Epilogue of `parseLayerFile`: final flush and the unclosed-grouping issue. -/
def finalizeParse (options : ParserOptions) (lines : List Str) (st : PLoopState) :
    ParsedFile :=
  let st := flushToken options lines st TokenContext.definition none
  if st.inGrouping then
    { st.output with
      issues := st.output.issues ++
        [createIssue "E010".data "Malformed grouping".data options.filePath
           st.groupingStartLine lines] }
  else st.output

/-- Fuelled main loop of `parseLayerFile`; `none` means the fuel ran out
before the input was consumed (shown below never to happen with fuel equal to
the input length). -/
def parseLoopFuel (options : ParserOptions) (lines : List Str) :
    Nat → PLoopState → Option ParsedFile
  | 0, st =>
      match st.text with
      | [] => some (finalizeParse options lines st)
      | _ :: _ => none
  | fuel + 1, st =>
      match st.text with
      | [] => some (finalizeParse options lines st)
      | _ :: _ => parseLoopFuel options lines fuel (stepOnce options lines st)

/-- Initial loop state of `parseLayerFile`. -/
def initParseState (options : ParserOptions) : PLoopState :=
  { text := options.text, line := 1, inQuote := none, inGrouping := false
    groupingStartLine := 1, groupingBuffer := [], tokenBuffer := []
    tokenLine := 1, output := { definitions := [], references := [], issues := [] } }

/-- Port of `parseLayerFile` (src/parser.ts): split the lines for context
snippets, run the scanning loop, flush, and report a dangling grouping. -/
def parseLayerFile (options : ParserOptions) : ParsedFile :=
  let lines := splitLines options.text
  (parseLoopFuel options lines options.text.length (initParseState options)).getD
    { definitions := [], references := [], issues := [] }

/-! ## src/validate.ts -/

/-- Port of `TokenWithSource` (src/validate.ts).  `toTokenWithSource` reads
`offset` and `length` properties that `ParsedToken` does not define, so at
runtime they hold `undefined`; both fields are therefore `Option Nat`. -/
structure TokenWithSource where
  id : Str
  raw : Str
  line : Nat
  filePath : Str
  offset : Option Nat
  length : Option Nat
  resolution : Option Str
deriving DecidableEq, Repr

/-- Port of `toTokenWithSource` (src/validate.ts); the `offset`/`length`
property reads on a `ParsedToken` yield `undefined`. -/
def toTokenWithSource (t : ParsedToken) (filePath : Str) : TokenWithSource :=
  { id := t.id, raw := t.raw, line := t.line, filePath := filePath
    offset := none, length := none, resolution := t.resolution }

/-- Port of `ParsedLayer` (src/validate.ts). -/
structure ParsedLayer where
  definitions : List TokenWithSource
  references : List TokenWithSource
deriving DecidableEq, Repr

/-- Port of `DefinitionRange` (src/validate.ts); `endLine := none` models
`Number.POSITIVE_INFINITY`. -/
structure DefinitionRange where
  token : TokenWithSource
  startLine : Nat
  endLine : Option Nat
deriving DecidableEq, Repr

/-- Reach record per definition id. -/
structure ReachRecord where
  origin : Nat
  terminal : Nat
deriving DecidableEq, Repr

/-- Port of `AdjacencySnapshot` (src/validate.ts).  The `matchedPairs`,
`upstreamAllDefinitions` and `downstreamAllReferences` fields feed only the
`--debug` console output and are not modelled. -/
structure AdjacencySnapshot where
  definedUpstream : List (Str × TokenWithSource)
  referencedInDownstream : List (Str × TokenWithSource)
  unknownReferences : List (Str × TokenWithSource)
  missingUpstream : List (Str × TokenWithSource)
deriving DecidableEq, Repr

/-- Port of `TraceGraph` (src/validate.ts). -/
structure TraceGraph where
  edgesByLayer : List (Nat × List (Str × List Str))
  reachById : List (Str × ReachRecord)
  adjacencyByLayer : List (Nat × AdjacencySnapshot)

/-- Layer entry of `TraceValidatorConfig` (src/config.ts); the compiled
anchored id regexes are boolean matchers, and the `globs` field (consumed only
by the external file-collection collaborator) is not modelled. -/
structure LayerConfig where
  name : Str
  ids : List (Str → Bool)

/-- Port of `TraceValidatorConfig` (src/config.ts) restricted to the fields
the core reads: the layer list and the grouping delimiters.  (`version`,
`errors`, `exclude`, `error_root` feed only external collaborators.) -/
structure TraceValidatorConfig where
  layers : List LayerConfig
  grouping : GroupingConfig

/-- One collected file entry (src/collection.ts). -/
structure FileEntry where
  relativePath : Str
  absolutePath : Str

/-- Files assigned to one layer (src/collection.ts). -/
structure LayerFiles where
  files : List FileEntry

/-- Port of `LayerFileCollection` (src/collection.ts). -/
structure LayerFileCollection where
  layers : List LayerFiles

/-- Port of `ValidationOptions` (src/validate.ts); `debug`/`quiet` gate only
console output and are not modelled. -/
structure ValidationOptions where
  layer : Option Str

/-- Port of `compileLayerRegexes` (src/validate.ts): the per-layer anchored
matchers. -/
def layerRegexes (config : TraceValidatorConfig) : List (List (Str → Bool)) :=
  config.layers.map (fun layer => layer.ids)

/-- Port of `resolveLayerIndex` (src/validate.ts). -/
def resolveLayerIndex (config : TraceValidatorConfig) (layer : Option Str) :
    Option Nat :=
  layer.bind (fun name => config.layers.findIdx? (fun entry => decide (entry.name = name)))

/-- Membership test of the `allowedLayerIndices` set (src/validate.ts):
all configured indices, or `{layerIndex - 1, layerIndex} ∩ ℕ` under `--layer`. -/
def allowedLayer (config : TraceValidatorConfig) (layerIdx : Option Nat) (i : Nat) :
    Bool :=
  match layerIdx with
  | none => decide (i < config.layers.length)
  | some li => (decide (1 ≤ li) && decide (i = li - 1)) || decide (i = li)

/-- Model of `path.resolve(root, rel)` for the relative paths the tool feeds
it: plain concatenation with a slash. -/
def pathResolve (root rel : Str) : Str :=
  root ++ "/".data ++ rel

/-- Port of `normalizeRelativePath` (src/validate.ts). -/
def normalizeRelativePath (s : Str) : Str :=
  s.map (fun c => if c = '\\' then '/' else c)

/-- Port of `resolveIssuePath` (src/validate.ts) for a config without
`error_root` (the error-root relative rewriting is presentation-only and not
modelled). -/
def resolveIssuePath (rootPath relativePath : Str) : Str :=
  pathResolve rootPath relativePath

/-- Port of `addToMapIfMissing` (src/validate.ts). -/
def addToMapIfMissing (m : List (Str × TokenWithSource)) (t : TokenWithSource) :
    List (Str × TokenWithSource) :=
  if containsKey m t.id then m else m ++ [(t.id, t)]

/-- Stable insertion into a line-ascending token list; models the stable JS
`sort((a, b) => a.line - b.line)`. -/
def insertByLine (t : TokenWithSource) : List TokenWithSource → List TokenWithSource
  | [] => [t]
  | u :: us => if t.line ≤ u.line then t :: u :: us else u :: insertByLine t us

/-- Stable sort of tokens by ascending line. -/
def sortTokensByLine : List TokenWithSource → List TokenWithSource
  | [] => []
  | t :: ts => insertByLine t (sortTokensByLine ts)

/-- Range construction over the line-sorted tokens of one file, port of the
second loop of `buildDefinitionRangesByFile` (src/validate.ts). -/
def rangesOfSorted : List TokenWithSource → List DefinitionRange
  | [] => []
  | [t] => [{ token := t, startLine := t.line, endLine := none }]
  | t :: u :: rest =>
      { token := t, startLine := t.line, endLine := some (max t.line (u.line - 1)) }
        :: rangesOfSorted (u :: rest)

/-- Port of `buildDefinitionRangesByFile` (src/validate.ts). -/
def buildDefinitionRangesByFile (definitions : List TokenWithSource) :
    List (Str × List DefinitionRange) :=
  let byFile :=
    definitions.foldl
      (fun m t =>
        match assocLookup m t.filePath with
        | some ts => setAssoc m t.filePath (ts ++ [t])
        | none => m ++ [(t.filePath, [t])])
      []
  byFile.map (fun p => (p.1, rangesOfSorted (sortTokensByLine p.2)))

/-- Port of `findDefinitionForLine` (src/validate.ts). -/
def findDefinitionForLine (rangesByFile : List (Str × List DefinitionRange))
    (filePath : Str) (line : Nat) : Option TokenWithSource :=
  match assocLookup rangesByFile filePath with
  | none => none
  | some ranges =>
      (ranges.find? (fun r =>
        decide (r.startLine ≤ line) &&
        (match r.endLine with
         | none => true
         | some e => decide (line ≤ e)))).map (fun r => r.token)

/-- Synthetic per-location node id for a reference without an enclosing
definition; `${ref.offset}` interpolates `undefined` as the word. -/
def syntheticRefId (ref : TokenWithSource) : Str :=
  "__ref__:".data ++ normalizeRelativePath ref.filePath ++ ":".data ++
    natToStr ref.line ++ ":".data ++
    (match ref.offset with
     | some o => natToStr o
     | none => "undefined".data)

/-- Lexicographic code-point comparison used to model `localeCompare`-based
and default JS sorts on the ASCII ids the tool handles. -/
def strLt : Str → Str → Bool
  | [], [] => false
  | [], _ :: _ => true
  | _ :: _, [] => false
  | a :: as, b :: bs => if a < b then true else if b < a then false else strLt as bs

/-- Stable insertion into an id-ascending pair list. -/
def insertPairAsc (x : Str × TokenWithSource) :
    List (Str × TokenWithSource) → List (Str × TokenWithSource)
  | [] => [x]
  | y :: ys => if strLt y.1 x.1 then y :: insertPairAsc x ys else x :: y :: ys

/-- Stable sort of id/token pairs by ascending id. -/
def sortPairsAsc : List (Str × TokenWithSource) → List (Str × TokenWithSource)
  | [] => []
  | x :: xs => insertPairAsc x (sortPairsAsc xs)

/-- Upstream definition map of the boundary `(k-1, k)`, in insertion order. -/
def definedUpstreamOf (parsedLayers : List ParsedLayer) (k : Nat) :
    List (Str × TokenWithSource) :=
  ((parsedLayers.getD (k - 1) ⟨[], []⟩).definitions).foldl addToMapIfMissing []

/-- Downstream reference map of the boundary `(k-1, k)`: references of layer
`k` that match the upstream layer's patterns, first occurrence per id. -/
def referencedInDownstreamOf (parsedLayers : List ParsedLayer)
    (regexes : List (List (Str → Bool))) (k : Nat) : List (Str × TokenWithSource) :=
  ((parsedLayers.getD k ⟨[], []⟩).references).foldl
    (fun m t => if matchesAny (regexes.getD (k - 1) []) t.id then addToMapIfMissing m t else m)
    []

/-- Adjacency snapshot of one boundary, port of the per-boundary body of
`buildTraceGraph` (src/validate.ts). -/
def adjacencySnapshot (parsedLayers : List ParsedLayer)
    (regexes : List (List (Str → Bool))) (k : Nat) : AdjacencySnapshot :=
  let definedUpstream := definedUpstreamOf parsedLayers k
  let referencedInDownstream := referencedInDownstreamOf parsedLayers regexes k
  { definedUpstream := definedUpstream
    referencedInDownstream := referencedInDownstream
    unknownReferences :=
      sortPairsAsc (referencedInDownstream.filter (fun p => !containsKey definedUpstream p.1))
    missingUpstream :=
      sortPairsAsc (definedUpstream.filter (fun p => !containsKey referencedInDownstream p.1)) }

/-- Edge map of one boundary, port of the edge-construction loop of
`buildTraceGraph` (src/validate.ts). -/
def boundaryEdges (parsedLayers : List ParsedLayer)
    (regexes : List (List (Str → Bool))) (k : Nat) : List (Str × List Str) :=
  let definedUpstream := definedUpstreamOf parsedLayers k
  let ranges := buildDefinitionRangesByFile (parsedLayers.getD k ⟨[], []⟩).definitions
  (referencedInDownstreamOf parsedLayers regexes k).foldl
    (fun edges p =>
      let ref := p.2
      if !containsKey definedUpstream ref.id then edges
      else
        let downstreamId :=
          match findDefinitionForLine ranges ref.filePath ref.line with
          | some d => d.id
          | none => syntheticRefId ref
        match assocLookup edges ref.id with
        | some ds =>
            setAssoc edges ref.id (if downstreamId ∈ ds then ds else ds ++ [downstreamId])
        | none => edges ++ [(ref.id, [downstreamId])])
    []

/-- Port of the memoized `resolveReach` recursion (src/validate.ts), fuelled.
The recursion only descends to strictly larger layer indices and stops beyond
the largest boundary key, so the fuel the callers pass
(`parsedLayers.length + 1`) always suffices; the memo table is a pure
optimization and is not modelled. -/
def resolveReach (edges : List (Nat × List (Str × List Str))) :
    Nat → Nat → Str → Nat
  | 0, layerIndex, _ => layerIndex
  | fuel + 1, layerIndex, id =>
      match assocLookup edges (layerIndex + 1) with
      | none => layerIndex
      | some layerEdges =>
          match assocLookup layerEdges id with
          | none => layerIndex
          | some ds =>
              if ds.isEmpty then layerIndex
              else
                ds.foldl
                  (fun terminal d => max terminal (resolveReach edges fuel (layerIndex + 1) d))
                  layerIndex

/-- Reach map over every definition of every layer, port of the final loop of
`buildTraceGraph` (src/validate.ts); later definitions of the same id
overwrite earlier records (`Map.set`). -/
def reachByIdOf (parsedLayers : List ParsedLayer)
    (edges : List (Nat × List (Str × List Str))) : List (Str × ReachRecord) :=
  (List.range parsedLayers.length).foldl
    (fun acc li =>
      ((parsedLayers.getD li ⟨[], []⟩).definitions).foldl
        (fun acc tok =>
          setAssoc acc tok.id
            { origin := li
              terminal := resolveReach edges (parsedLayers.length + 1) li tok.id })
        acc)
    []

/-- Port of `buildTraceGraph` (src/validate.ts). -/
def buildTraceGraph (parsedLayers : List ParsedLayer)
    (regexes : List (List (Str → Bool))) (pairsToCheck : List Nat) : TraceGraph :=
  let edges := pairsToCheck.map (fun k => (k, boundaryEdges parsedLayers regexes k))
  { edgesByLayer := edges
    reachById := reachByIdOf parsedLayers edges
    adjacencyByLayer := pairsToCheck.map (fun k => (k, adjacencySnapshot parsedLayers regexes k)) }

/-- Port of `isResolutionPathInScope` (src/validate.ts). -/
def isResolutionPathInScope (allowed : Nat → Bool) (fromIdx toIdx : Nat) : Bool :=
  let start := min fromIdx toIdx
  let stop := max fromIdx toIdx
  (List.range (stop - start + 1)).all (fun j => allowed (start + j))

/-- Accumulator of the per-file parse loop of `validateTraceability`. -/
structure ParseAccState where
  parsedLayers : List ParsedLayer
  fileLines : List (Str × List Str)
  referencedIdsByLayer : List (List Str)
  issues : List Issue

/-- Per-file body of the parse loop of `validateTraceability`
(src/validate.ts). -/
def parseOneFile (rootPath : Str) (config : TraceValidatorConfig)
    (fsys : Str → Str) (parserResolution : Option ResolutionLookup)
    (layerPatterns upstreamPatterns : List (Str → Bool)) (index : Nat)
    (st : ParseAccState) (file : FileEntry) : ParseAccState :=
  let text := fsys file.absolutePath
  let lines := splitLines text
  let issuePath := resolveIssuePath rootPath file.relativePath
  let parsed := parseLayerFile
    { filePath := issuePath, text := text
      layerIdPatterns := layerPatterns, upstreamIdPatterns := upstreamPatterns
      resolution := parserResolution, grouping := config.grouping }
  { parsedLayers :=
      updateAt st.parsedLayers index (fun pl =>
        { definitions := pl.definitions ++
            parsed.definitions.map (fun t => toTokenWithSource t file.relativePath)
          references := pl.references ++
            parsed.references.map (fun t => toTokenWithSource t file.relativePath) })
    fileLines := setAssoc st.fileLines file.relativePath lines
    referencedIdsByLayer :=
      updateAt st.referencedIdsByLayer index (fun ids =>
        parsed.references.foldl
          (fun ids t => if t.id ∈ ids then ids else ids ++ [t.id]) ids)
    issues := st.issues ++ parsed.issues }

/-- Parse loop of `validateTraceability` across all allowed layers. -/
def parseAllFiles (rootPath : Str) (config : TraceValidatorConfig)
    (collection : LayerFileCollection) (fsys : Str → Str)
    (allowed : Nat → Bool) (parserResolution : Option ResolutionLookup) :
    ParseAccState :=
  (collection.layers.enum).foldl
    (fun st p =>
      let index := p.1
      if !allowed index then st
      else
        let layerPatterns := (layerRegexes config).getD index []
        let upstreamPatterns :=
          if 0 < index then (layerRegexes config).getD (index - 1) [] else []
        p.2.files.foldl
          (parseOneFile rootPath config fsys parserResolution layerPatterns
            upstreamPatterns index)
          st)
    { parsedLayers := config.layers.map (fun _ => ⟨[], []⟩)
      fileLines := []
      referencedIdsByLayer := config.layers.map (fun _ => [])
      issues := [] }

/-- Port of the `pairsToValidate` computation (src/validate.ts). -/
def pairsToValidate (config : TraceValidatorConfig) (layerIdx : Option Nat) :
    List Nat :=
  match layerIdx with
  | none => (List.range config.layers.length).filter (fun i => decide (0 < i))
  | some li => if 0 < li then [li] else []

/-- Phase-2 issues of one boundary: `E030` for every unknown reference, then
`E101` for every missing upstream id when resolution is disabled.  Port of the
per-boundary body of the phase-2 loop of `validateTraceability`. -/
def boundaryIssues (rootPath : Str) (fileLines : List (Str × List Str))
    (graph : TraceGraph) (allowed : Nat → Bool) (resolutionEnabled : Bool)
    (k : Nat) : List Issue :=
  if !allowed k then []
  else if !allowed (k - 1) then []
  else
    match assocLookup graph.adjacencyByLayer k with
    | none => []
    | some snapshot =>
        snapshot.unknownReferences.map (fun p =>
          createIssue "E030".data ("UnknownUpstreamReference: ".data ++ p.1)
            (resolveIssuePath rootPath p.2.filePath) p.2.line
            ((assocLookup fileLines p.2.filePath).getD []))
        ++ (if resolutionEnabled then []
            else
              snapshot.missingUpstream.map (fun p =>
                createIssue "E101".data ("UnmappedUpstreamId: ".data ++ p.1)
                  (resolveIssuePath rootPath p.2.filePath) p.2.line
                  ((assocLookup fileLines p.2.filePath).getD [])))

/-- Annotated layer index as `config.layers.findIndex` computes it, `-1` when
the name is not a configured layer. -/
def jsFindLayerIndex (config : TraceValidatorConfig) (r : Str) : Int :=
  match config.layers.findIdx? (fun entry => decide (entry.name = r)) with
  | some i => Int.ofNat i
  | none => -1

/-- Phase-3 resolution issues (`E211`, `E220`), port of the final loop of
`validateTraceability` (src/validate.ts).  Note the strict `<` comparison
on the annotated layer index (`resolutionIndex < layerIndexToCheck`). -/
def phase3Issues (rootPath : Str) (config : TraceValidatorConfig)
    (pstate : ParseAccState) (graph : TraceGraph) (allowed : Nat → Bool)
    (resolutionEnabled : Bool) : List Issue :=
  if !resolutionEnabled then []
  else
    (List.range pstate.parsedLayers.length).flatMap (fun li =>
      ((pstate.parsedLayers.getD li ⟨[], []⟩).definitions).flatMap (fun token =>
        match token.resolution with
        | none => []
        | some r =>
            if r = [] then []
            else
              let resolutionIndex : Int := jsFindLayerIndex config r
              if resolutionIndex < Int.ofNat li then
                [createIssue "E211".data ("OutOfOrderResolutionLevel: ".data ++ r)
                   (resolveIssuePath rootPath token.filePath) token.line
                   ((assocLookup pstate.fileLines token.filePath).getD [])]
              else
                let resolutionIdx := resolutionIndex.toNat
                if !isResolutionPathInScope allowed li resolutionIdx then []
                else
                  let actualIndex :=
                    match assocLookup graph.reachById token.id with
                    | some rec => rec.terminal
                    | none => li
                  if actualIndex = resolutionIdx then []
                  else
                    let resolvedName :=
                      match config.layers[resolutionIdx]? with
                      | some entry => entry.name
                      | none => r
                    let actualName :=
                      match config.layers[actualIndex]? with
                      | some entry => entry.name
                      | none => "(unknown)".data
                    [createIssue "E220".data
                       ("MismatchedResolution: definition annotated ".data ++
                          resolvedName ++ ", trace ends at ".data ++ actualName)
                       (resolveIssuePath rootPath token.filePath) token.line
                       ((assocLookup pstate.fileLines token.filePath).getD [])]))

/-- Port of `TraceAnalysis` (src/validate.ts). -/
structure TraceAnalysis where
  issues : List Issue
  parsedLayers : List ParsedLayer
  referencedIdsByLayer : List (List Str)
  fileLines : List (Str × List Str)
  traceGraph : TraceGraph

/-- Resolution settings handed to the parser: the lookup itself when enabled,
`undefined` otherwise (`resolution?.enabled ? resolution : undefined`). -/
def parserResolutionOf (resolutionOpt : Option ResolutionLookup) :
    Option ResolutionLookup :=
  match resolutionOpt with
  | some r => if r.enabled then some r else none
  | none => none

/-- Truthiness of `resolution?.enabled`. -/
def resolutionEnabledOf (resolutionOpt : Option ResolutionLookup) : Bool :=
  match resolutionOpt with
  | some r => r.enabled
  | none => false

/-- Parse state of a `validateTraceability` run. -/
def vtParseState (rootPath : Str) (config : TraceValidatorConfig)
    (collection : LayerFileCollection) (fsys : Str → Str)
    (options : ValidationOptions) (resolutionOpt : Option ResolutionLookup) :
    ParseAccState :=
  parseAllFiles rootPath config collection fsys
    (allowedLayer config (resolveLayerIndex config options.layer))
    (parserResolutionOf resolutionOpt)

/-- Boundary list of a `validateTraceability` run. -/
def vtPairs (config : TraceValidatorConfig) (options : ValidationOptions) :
    List Nat :=
  pairsToValidate config (resolveLayerIndex config options.layer)

/-- Trace graph of a `validateTraceability` run. -/
def vtGraph (rootPath : Str) (config : TraceValidatorConfig)
    (collection : LayerFileCollection) (fsys : Str → Str)
    (options : ValidationOptions) (resolutionOpt : Option ResolutionLookup) :
    TraceGraph :=
  buildTraceGraph
    (vtParseState rootPath config collection fsys options resolutionOpt).parsedLayers
    (layerRegexes config) (vtPairs config options)

/-- Port of `validateTraceability` (src/validate.ts): parse every allowed
layer's files, build the trace graph, then emit phase-2 adjacency issues and
phase-3 resolution issues after the parse-phase issues. -/
def validateTraceability (rootPath : Str) (config : TraceValidatorConfig)
    (collection : LayerFileCollection) (fsys : Str → Str)
    (options : ValidationOptions) (resolutionOpt : Option ResolutionLookup) :
    TraceAnalysis :=
  let pstate := vtParseState rootPath config collection fsys options resolutionOpt
  let graph := vtGraph rootPath config collection fsys options resolutionOpt
  let allowed := allowedLayer config (resolveLayerIndex config options.layer)
  let resEnabled := resolutionEnabledOf resolutionOpt
  { issues := pstate.issues
      ++ (vtPairs config options).flatMap
          (boundaryIssues rootPath pstate.fileLines graph allowed resEnabled)
      ++ phase3Issues rootPath config pstate graph allowed resEnabled
    parsedLayers := pstate.parsedLayers
    referencedIdsByLayer := pstate.referencedIdsByLayer
    fileLines := pstate.fileLines
    traceGraph := graph }

/-! ## src/resolution-writer.ts -/

/-- Port of `ResolutionEdit` (src/resolution-writer.ts).  `offset` and
`length` are copied from a `TokenWithSource`, hence possibly `undefined`. -/
structure ResolutionEdit where
  filePath : Str
  line : Nat
  offset : Option Nat
  length : Option Nat
  oldText : Str
  newText : Str
  definitionId : Str
  oldResolution : Option Str
  newResolution : Str
deriving DecidableEq, Repr

/-- Set/fix mode switches of `computeResolutionEdits`. -/
structure WriterOptions where
  set : Bool
  fix : Bool

/-- The `hasMarker` test of `computeResolutionEdits`:
`token.length > token.raw.length`, where an `undefined` length compares
false. -/
def hasMarkerOf (token : TokenWithSource) : Bool :=
  match token.length with
  | some l => decide (l > token.raw.length)
  | none => false

/-- The `actualResolution` chain of `computeResolutionEdits`:
`config.layers[actualIndex]?.name ?? token.resolution ?? ""`. -/
def actualResolutionOf (config : TraceValidatorConfig) (token : TokenWithSource)
    (actualIndex : Nat) : Str :=
  match config.layers[actualIndex]? with
  | some entry => entry.name
  | none =>
      match token.resolution with
      | some r => r
      | none => []

/-- Edits proposed for one definition token, port of the loop body of
`computeResolutionEdits` (src/resolution-writer.ts).  JS truthiness of
`token.resolution` makes `some ""` count as absent. -/
def editsForToken (config : TraceValidatorConfig) (resolution : ResolutionLookup)
    (options : WriterOptions) (reachById : List (Str × ReachRecord))
    (layerIndex : Nat) (token : TokenWithSource) : List ResolutionEdit :=
  let actualIndex :=
    match assocLookup reachById token.id with
    | some rec => rec.terminal
    | none => layerIndex
  let actualResolution := actualResolutionOf config token actualIndex
  let newEdit : ResolutionEdit :=
    { filePath := token.filePath, line := token.line
      offset := token.offset, length := token.length
      oldText := [], newText := token.id ++ resolution.separator ++ actualResolution
      definitionId := token.id, oldResolution := token.resolution
      newResolution := actualResolution }
  (if options.set &&
      (match token.resolution with
       | none => true
       | some r => decide (r = [])) &&
      !hasMarkerOf token then
    [newEdit]
  else []) ++
  (if options.fix &&
      (match token.resolution with
       | some r => !decide (r = []) && !decide (r = actualResolution)
       | none => false) then
    [newEdit]
  else [])

/-- Port of `computeResolutionEdits` (src/resolution-writer.ts, the version
reading the trace graph's reach map). -/
def computeResolutionEdits (config : TraceValidatorConfig)
    (analysis : TraceAnalysis) (resolution : ResolutionLookup)
    (options : WriterOptions) : List ResolutionEdit :=
  (List.range analysis.parsedLayers.length).flatMap (fun li =>
    ((analysis.parsedLayers.getD li ⟨[], []⟩).definitions).flatMap
      (editsForToken config resolution options analysis.traceGraph.reachById li))

/-- Strict offset comparison of two edits; comparisons involving an
`undefined` offset are `NaN` in JS and never reorder. -/
def offsetGtE (a b : ResolutionEdit) : Bool :=
  match a.offset, b.offset with
  | some x, some y => decide (x > y)
  | _, _ => false

/-- Stable insertion for the descending-offset sort. -/
def insertEditDesc (e : ResolutionEdit) : List ResolutionEdit → List ResolutionEdit
  | [] => [e]
  | f :: fs => if offsetGtE e f then e :: f :: fs else f :: insertEditDesc e fs

/-- Model of the stable JS `sort((a, b) => b.offset - a.offset)`: an element
moves ahead of another only on a strictly greater offset. -/
def sortEditsDesc : List ResolutionEdit → List ResolutionEdit
  | [] => []
  | e :: es => insertEditDesc e (sortEditsDesc es)

/-- Port of the `editsByFile` grouping of `applyResolutionEdits`. -/
def groupEditsByFile (edits : List ResolutionEdit) :
    List (Str × List ResolutionEdit) :=
  edits.foldl
    (fun m e =>
      match assocLookup m e.filePath with
      | some bucket => setAssoc m e.filePath (bucket ++ [e])
      | none => m ++ [(e.filePath, [e])])
    []

/-- Message of the error thrown on an empty re-sliced token range. -/
def applyErrorMsg (relativePath : Str) (e : ResolutionEdit) : Str :=
  "Resolution update failed: empty token at ".data ++ relativePath ++ ":".data ++
    natToStr e.line

/-- The re-sliced range `text.slice(edit.offset, edit.offset + edit.length)`;
with an `undefined` offset or length the JS endpoints collapse and the slice
is empty. -/
def spliceRangeOf (text : Str) (e : ResolutionEdit) : Str :=
  match e.offset, e.length with
  | some o, some l => jsSlice text o (o + l)
  | _, _ => []

/-- Inner splice loop of `applyResolutionEdits` over one file's sorted edits:
re-slice, verify non-empty, record `oldText`, splice.  An `Except.error`
models the thrown exception. -/
def applyEditsGo (relativePath : Str) :
    Str → List ResolutionEdit → List ResolutionEdit →
    Except Str (Str × List ResolutionEdit)
  | text, [], applied => .ok (text, applied)
  | text, e :: rest, applied =>
      match e.offset, e.length with
      | some o, some l =>
          let existing := jsSlice text o (o + l)
          if existing = [] then .error (applyErrorMsg relativePath e)
          else
            applyEditsGo relativePath (text.take o ++ e.newText ++ text.drop (o + l))
              rest (applied ++ [{ e with oldText := existing }])
      | _, _ => .error (applyErrorMsg relativePath e)

/-- Spec-side splice loop, named after the spec's words: before each splice
the freshly read (original) file content is re-sliced at the edit's recorded
`(offset, length)` range.  Used to compare `applyEditsGo` against the spec's
description of the apply step. -/
def applyEditsFromOriginal (relativePath : Str) (orig : Str) :
    Str → List ResolutionEdit → List ResolutionEdit →
    Except Str (Str × List ResolutionEdit)
  | text, [], applied => .ok (text, applied)
  | text, e :: rest, applied =>
      match e.offset, e.length with
      | some o, some l =>
          let existing := jsSlice orig o (o + l)
          if existing = [] then .error (applyErrorMsg relativePath e)
          else
            applyEditsFromOriginal relativePath orig
              (text.take o ++ e.newText ++ text.drop (o + l))
              rest (applied ++ [{ e with oldText := existing }])
      | _, _ => .error (applyErrorMsg relativePath e)

/-- Per-file loop of `applyResolutionEdits`.  The first component of the
result is the log of file writes performed (absolute path, new text); an
error return models the thrown exception, which aborts before the failing
file's write while keeping writes already made for earlier files. -/
def applyFilesGo (rootPath : Str) (readFile : Str → Str) (dryRun : Bool) :
    List (Str × List ResolutionEdit) → List (Str × Str) → List ResolutionEdit →
    Nat → List (Str × Str) × Except Str (List ResolutionEdit × Nat)
  | [], writes, applied, n => (writes, .ok (applied, n))
  | (rel, fileEdits) :: rest, writes, applied, n =>
      let absolutePath := pathResolve rootPath rel
      let text := readFile absolutePath
      match applyEditsGo rel text (sortEditsDesc fileEdits) [] with
      | .error msg => (writes, .error msg)
      | .ok (newText, appliedFile) =>
          if dryRun then
            applyFilesGo rootPath readFile dryRun rest writes (applied ++ appliedFile) n
          else
            applyFilesGo rootPath readFile dryRun rest
              (writes ++ [(absolutePath, newText)]) (applied ++ appliedFile) (n + 1)

/-- Port of `applyResolutionEdits` (src/resolution-writer.ts).  File contents
are read through `readFile` over the current on-disk snapshot; the byte-level
encoding/BOM round-trip of src/encoding.ts sits below the decoded text and is
not modelled. -/
def applyResolutionEdits (rootPath : Str) (readFile : Str → Str)
    (edits : List ResolutionEdit) (dryRun : Bool) :
    List (Str × Str) × Except Str (List ResolutionEdit × Nat) :=
  if edits = [] then ([], .ok ([], 0))
  else applyFilesGo rootPath readFile dryRun (groupEditsByFile edits) [] [] 0

/-! ## Concrete fixtures

Small configurations used to evaluate the embedded pipeline at concrete
inputs: a two-layer ladder `intents → capabilities` with anchored id shapes
`INTENT-<digits>` and `CAP-<digits>`, square-bracket groupings separated by
commas, passthrough marker `PT:`, and resolution separator `@`. -/

/-- ASCII digit test for the fixture matchers. -/
def isDigitC (c : Char) : Bool := '0' ≤ c && c ≤ '9'

/-- Matcher for the anchored pattern `^INTENT-\d+$`. -/
def intentPat (s : Str) : Bool :=
  strStarts "INTENT-".data s && (s.drop 7).all isDigitC && decide (s.drop 7 ≠ [])

/-- Matcher for the anchored pattern `^CAP-\d+$`. -/
def capPat (s : Str) : Bool :=
  strStarts "CAP-".data s && (s.drop 4).all isDigitC && decide (s.drop 4 ≠ [])

/-- Fixture grouping delimiters. -/
def fixGrouping : GroupingConfig :=
  { start := "[".data, stop := "]".data, separator := ",".data
    passthrough := some "PT:".data }

/-- Fixture two-layer config. -/
def fixConfig : TraceValidatorConfig :=
  { layers := [{ name := "intents".data, ids := [intentPat] },
               { name := "capabilities".data, ids := [capPat] }]
    grouping := fixGrouping }

/-- Fixture collection: one file per layer. -/
def fixCollection : LayerFileCollection :=
  { layers := [{ files := [{ relativePath := "l0.md".data, absolutePath := "/r/l0.md".data }] },
               { files := [{ relativePath := "l1.md".data, absolutePath := "/r/l1.md".data }] }] }

/-- Fixture resolution lookup with separator `@`. -/
def fixResolution : ResolutionLookup :=
  { enabled := true, layerNames := ["intents".data, "capabilities".data]
    aliasToName := [], separator := "@".data }

/-- Parser options for a quoted own-layer id. -/
def fixOptsQuoted : ParserOptions :=
  { filePath := "l1.md".data, text := ("\"CAP-1\"").data
    layerIdPatterns := [capPat], upstreamIdPatterns := [intentPat]
    resolution := none, grouping := fixGrouping }

/-- Parser options for a plain upstream-layer definition file. -/
def fixOptsPlain : ParserOptions :=
  { filePath := "l0.md".data, text := "INTENT-1 ok".data
    layerIdPatterns := [intentPat], upstreamIdPatterns := []
    resolution := none, grouping := fixGrouping }

/-- Filesystem snapshot for the self-annotated-marker scenario: `CAP-1` is
annotated with its own layer and its trace indeed ends at its own layer. -/
def fsSelfAnnotated : Str → Str := fun p =>
  if p = "/r/l0.md".data then "INTENT-1 ok".data
  else if p = "/r/l1.md".data then "CAP-1@capabilities x [INTENT-1]".data
  else []

/-- Filesystem snapshot for fix mode: `INTENT-1` is annotated `capabilities`
but is never referenced downstream, so fix mode must correct the marker. -/
def fsFixScenario : Str → Str := fun p =>
  if p = "/r/l0.md".data then "INTENT-1@capabilities hello".data
  else if p = "/r/l1.md".data then "CAP-1 z".data
  else []

/-- Filesystem snapshot for scenario B: the grouping `[INTENT-1, INTENT-999]`
downstream with only `INTENT-1` defined upstream. -/
def fsScenarioB : Str → Str := fun p =>
  if p = "/r/l0.md".data then "INTENT-1 ok".data
  else if p = "/r/l1.md".data then "[INTENT-1, INTENT-999]".data
  else []

/-- Filesystem snapshot with an upstream definition never referenced
downstream. -/
def fsMissingRef : Str → Str := fun p =>
  if p = "/r/l0.md".data then "INTENT-1 ok".data
  else if p = "/r/l1.md".data then "CAP-1 hello".data
  else []

/-- Whether an `Except` result is the error case. -/
def exceptIsError {α β : Type} : Except α β → Bool
  | .error _ => true
  | .ok _ => false

/-- The slice `text.slice(offset, offset + length)` at a token's recorded
range; JS endpoints collapse to an empty slice when `offset`/`length` are
`undefined`. -/
def sliceAtTokenRange (text : Str) (tok : TokenWithSource) : Str :=
  match tok.offset, tok.length with
  | some o, some l => jsSlice text o (o + l)
  | _, _ => []

/-! ## Claim theorems -/

/-- C1: the claim asserts that a quote character enters an `InQuote` state and
an id enclosed in quotes is emitted as a reference.  The shipped
`parseLayerFile` declares `inQuote` but never assigns it and has no quote
branch, so the quoted own-layer id `"CAP-1"` is flushed in definition context
and lands in the definitions list while the references list stays empty —
contradicting the claim (and the repository's own README and Corner-2 test
case). -/
theorem c1_quoted_id_becomes_definition :
    (parseLayerFile fixOptsQuoted).definitions.map (fun t => t.id) = ["CAP-1".data] ∧
    (parseLayerFile fixOptsQuoted).references = [] :=
  ⟨rfl, rfl⟩

/-- C2: the claim asserts every parsed token carries a byte range whose slice
reproduces its literal source text.  `ParsedToken` has no `offset`/`length`
fields, so `toTokenWithSource` copies `undefined` into both and the recorded
range always slices to the empty string — never to the token's raw text. -/
theorem c2_recorded_range_slices_empty :
    (parseLayerFile fixOptsPlain).definitions.map
        (fun t => (toTokenWithSource t "l0.md".data).offset) = [none] ∧
    (parseLayerFile fixOptsPlain).definitions.map
        (fun t => (toTokenWithSource t "l0.md".data).length) = [none] ∧
    (parseLayerFile fixOptsPlain).definitions.map
        (fun t => sliceAtTokenRange fixOptsPlain.text (toTokenWithSource t "l0.md".data)) =
      [[]] ∧
    (parseLayerFile fixOptsPlain).definitions.map (fun t => t.raw) = ["INTENT-1".data] :=
  ⟨rfl, rfl, rfl, rfl⟩

/-- C3: the claim (and the spec and the repository's architecture notes) say a
marker whose annotated layer index is equal to the definition's own layer
index triggers `OutOfOrderResolutionLevel`.  The code compares with strict
`<`, so `CAP-1@capabilities` — annotated at its own layer, with its trace
ending at its own layer — produces no issue at all. -/
theorem c3_self_annotated_marker_unreported :
    (validateTraceability "/r".data fixConfig fixCollection fsSelfAnnotated
        { layer := none } (some fixResolution)).issues = [] ∧
    ((validateTraceability "/r".data fixConfig fixCollection fsSelfAnnotated
        { layer := none } (some fixResolution)).parsedLayers.getD 1 ⟨[], []⟩).definitions.map
        (fun t => (t.id, t.resolution)) =
      [("CAP-1".data, some "capabilities".data)] :=
  ⟨by decide, by decide⟩

/-- Fix-mode edits of the fix scenario. -/
def fixScenarioEdits : List ResolutionEdit :=
  computeResolutionEdits fixConfig
    (validateTraceability "/r".data fixConfig fixCollection fsFixScenario
      { layer := none } (some fixResolution))
    fixResolution { set := false, fix := true }

/-- C4: the claim asserts fix mode is a fixpoint (zero edits on an immediate
re-run).  Because parsed tokens carry no byte ranges, every proposed edit has
an `undefined` range: the apply step's re-slice is empty, the apply throws,
no file is written, and re-running fix mode over the unchanged snapshot
proposes the same non-empty edit list again. -/
theorem c4_fix_mode_not_a_fixpoint :
    fixScenarioEdits.length = 1 ∧
    (applyResolutionEdits "/r".data fsFixScenario fixScenarioEdits false).1 = [] ∧
    exceptIsError (applyResolutionEdits "/r".data fsFixScenario fixScenarioEdits false).2 =
      true ∧
    computeResolutionEdits fixConfig
        (validateTraceability "/r".data fixConfig fixCollection fsFixScenario
          { layer := none } (some fixResolution))
        fixResolution { set := false, fix := true } =
      fixScenarioEdits :=
  ⟨by decide, by decide, by decide, by decide⟩

/-! ## Supporting lemmas: parser -/

/-- With no quote/grouping context and no marker level, the resolution
preprocessing of `handleToken` is the identity and pushes no issue. -/
lemma handleTokenResolution_plain (normalized : Str) (line : Nat)
    (options : ParserOptions) (lines : List Str) :
    handleTokenResolution normalized line options lines
        { inQuote := false, inGrouping := false } none =
      (normalized, none, []) := by
  unfold handleTokenResolution
  cases options.resolution with
  | none => rfl
  | some r => cases r.enabled <;> simp

/-- A positive `matchesAny` forces a nonempty pattern list. -/
lemma matchesAny_ne_nil {pats : List (Str → Bool)} {v : Str}
    (h : matchesAny pats v = true) : pats.isEmpty = false := by
  cases pats <;> simp_all [matchesAny]

/-- Issue codes the parser can produce. -/
def recoverableCodes : List Str :=
  ["E010".data, "E020".data, "E110".data, "E111".data]

/-- All issues of a parsed file carry recoverable parse codes. -/
def parseCodesOk (out : ParsedFile) : Prop :=
  ∀ i ∈ out.issues, i.code ∈ recoverableCodes

/-- Fold-preservation helper. -/
lemma foldl_preserve {α β : Type} (Q : β → Prop) (g : β → α → β) (l : List α)
    (h : ∀ acc x, Q acc → Q (g acc x)) :
    ∀ init, Q init → Q (l.foldl g init) := by
  induction l with
  | nil => intro init hi; simpa using hi
  | cons x xs ih =>
      intro init hi
      simpa using ih _ (h init x hi)

/-- Issues pushed by the resolution preprocessing carry recoverable codes. -/
lemma handleTokenResolution_codes (normalized : Str) (line : Nat)
    (options : ParserOptions) (lines : List Str) (flags : ContextFlags)
    (lvl : Option Str) :
    ∀ i ∈ (handleTokenResolution normalized line options lines flags lvl).2.2,
      i.code ∈ recoverableCodes := by
  unfold handleTokenResolution
  rcases options.resolution with _ | r
  · simp
  · cases he : r.enabled
    · simp [he]
    · cases hq : (flags.inQuote || flags.inGrouping)
      · cases lvl with
        | none => simp [he, hq]
        | some l =>
            rcases hr : resolveResolutionLevel l (some r) with _ | resolved
            · simp [he, hq, hr, createIssue, recoverableCodes]
            · by_cases hres : resolved = []
              · simp [he, hq, hr, hres, createIssue, recoverableCodes]
              · simp [he, hq, hr, hres]
      · rcases hs : findResolutionSplit normalized r.separator with _ | split
        · simp [he, hq, hs]
        · simp [he, hq, hs, createIssue, recoverableCodes]

/-- Issues of a `handleToken` call are prior issues or carry recoverable
codes. -/
lemma handleToken_codes (raw normalized : Str) (line : Nat)
    (context : TokenContext) (options : ParserOptions) (lines : List Str)
    (output : ParsedFile) (flags : ContextFlags) (lvl : Option Str) :
    ∀ i ∈ (handleToken raw normalized line context options lines output flags lvl).issues,
      i ∈ output.issues ∨ i.code ∈ recoverableCodes := by
  unfold handleToken
  by_cases hraw : raw = []
  · simp [hraw]; tauto
  · rw [if_neg hraw]
    dsimp only
    have hres := handleTokenResolution_codes normalized line options lines flags lvl
    split
    · intro i hi
      rcases List.mem_append.mp hi with h | h
      · exact Or.inl h
      · exact Or.inr (hres i h)
    · split
      · intro i hi
        rcases List.mem_append.mp hi with h | h
        · rcases List.mem_append.mp h with h' | h'
          · exact Or.inl h'
          · exact Or.inr (hres i h')
        · simp only [List.mem_singleton] at h
          subst h
          exact Or.inr (by simp [createIssue, recoverableCodes])
      · split
        · intro i hi
          rcases List.mem_append.mp hi with h | h
          · exact Or.inl h
          · exact Or.inr (hres i h)
        · intro i hi
          rcases List.mem_append.mp hi with h | h
          · exact Or.inl h
          · exact Or.inr (hres i h)

/-- `handleToken` preserves `parseCodesOk`. -/
lemma handleToken_codesOk {output : ParsedFile} (h : parseCodesOk output)
    (raw normalized : Str) (line : Nat) (context : TokenContext)
    (options : ParserOptions) (lines : List Str) (flags : ContextFlags)
    (lvl : Option Str) :
    parseCodesOk (handleToken raw normalized line context options lines output flags lvl) := by
  intro i hi
  rcases handleToken_codes raw normalized line context options lines output flags lvl i hi with
    hmem | hcode
  · exact h i hmem
  · exact hcode

/-- `processGroupingTokens` preserves `parseCodesOk`. -/
lemma processGroupingTokens_codesOk (options : ParserOptions) (lines : List Str)
    {output : ParsedFile} (h : parseCodesOk output) (toks : List GroupTok) :
    parseCodesOk (processGroupingTokens options lines output toks) := by
  unfold processGroupingTokens
  refine foldl_preserve parseCodesOk _ toks ?_ output h
  intro acc tok hacc
  rcases options.grouping.passthrough with _ | p
  · exact handleToken_codesOk hacc _ _ _ _ _ _ _ _
  · simp only
    split
    · split
      · intro i hi
        rcases List.mem_append.mp hi with h' | h'
        · exact hacc i h'
        · simp only [List.mem_singleton] at h'
          subst h'
          simp [createIssue, recoverableCodes]
      · exact handleToken_codesOk hacc _ _ _ _ _ _ _ _
    · exact handleToken_codesOk hacc _ _ _ _ _ _ _ _

/-- `flushToken` preserves `parseCodesOk` of the output. -/
lemma flushToken_codesOk (options : ParserOptions) (lines : List Str)
    {st : PLoopState} (h : parseCodesOk st.output) (context : TokenContext)
    (lvl : Option Str) :
    parseCodesOk (flushToken options lines st context lvl).output := by
  unfold flushToken
  split
  · exact h
  · exact handleToken_codesOk h _ _ _ _ _ _ _ _

/-- `flushToken` leaves the unconsumed text unchanged. -/
lemma flushToken_text (options : ParserOptions) (lines : List Str)
    (st : PLoopState) (context : TokenContext) (lvl : Option Str) :
    (flushToken options lines st context lvl).text = st.text := by
  unfold flushToken
  split <;> rfl

/-- Projection lemma: `advanceBy` leaves the output untouched. -/
lemma advanceBy_output (st : PLoopState) (k : Nat) :
    (advanceBy st k).output = st.output := rfl

/-- Projection lemma: `advanceBy` drops the consumed characters. -/
lemma advanceBy_text (st : PLoopState) (k : Nat) :
    (advanceBy st k).text = st.text.drop k := rfl

/-- `stepDefaultTail` preserves `parseCodesOk` of the output. -/
lemma stepDefaultTail_codesOk (options : ParserOptions) (lines : List Str)
    {st : PLoopState} (h : parseCodesOk st.output) (c : Char) :
    parseCodesOk (stepDefaultTail options lines st c).output := by
  unfold stepDefaultTail
  split
  · exact flushToken_codesOk options lines h _ _
  · dsimp only
    split <;> exact h

/-- `stepDefaultTail` consumes exactly one character. -/
lemma stepDefaultTail_text (options : ParserOptions) (lines : List Str)
    (st : PLoopState) (c : Char) :
    (stepDefaultTail options lines st c).text = st.text.drop 1 := by
  unfold stepDefaultTail
  split
  · rw [advanceBy_text, flushToken_text]
  · dsimp only
    split <;> rfl

/-- `stepOnce` preserves `parseCodesOk` of the output. -/
lemma stepOnce_codesOk (options : ParserOptions) (lines : List Str)
    {st : PLoopState} (h : parseCodesOk st.output) :
    parseCodesOk (stepOnce options lines st).output := by
  unfold stepOnce
  dsimp only
  split
  · exact h
  · split
    · split
      · simp only [advanceBy_output]
        split
        · intro i hi
          rcases List.mem_append.mp hi with h' | h'
          · exact h i h'
          · simp only [List.mem_singleton] at h'
            subst h'
            simp [createIssue, recoverableCodes]
        · exact processGroupingTokens_codesOk options lines h _
      · simp only [advanceBy_output]
        exact h
    · split
      · simp only [advanceBy_output]
        exact flushToken_codesOk options lines h _ _
      · split
        · simp only [advanceBy_output]
          intro i hi
          rcases List.mem_append.mp hi with h' | h'
          · exact flushToken_codesOk options lines h TokenContext.definition none i h'
          · simp only [List.mem_singleton] at h'
            subst h'
            simp [createIssue, recoverableCodes]
        · split
          · simp only [advanceBy_output]
            exact flushToken_codesOk options lines h _ _
          · split
            · split
              · simp only [advanceBy_output]
                exact flushToken_codesOk options lines h _ _
              · exact stepDefaultTail_codesOk options lines h _
            · exact stepDefaultTail_codesOk options lines h _

/-- `finalizeParse` preserves `parseCodesOk`. -/
lemma finalizeParse_codesOk (options : ParserOptions) (lines : List Str)
    {st : PLoopState} (h : parseCodesOk st.output) :
    parseCodesOk (finalizeParse options lines st) := by
  unfold finalizeParse
  dsimp only
  split
  · intro i hi
    rcases List.mem_append.mp hi with h' | h'
    · exact flushToken_codesOk options lines h TokenContext.definition none i h'
    · simp only [List.mem_singleton] at h'
      subst h'
      simp [createIssue, recoverableCodes]
  · exact flushToken_codesOk options lines h TokenContext.definition none

/-- Results of the fuelled loop keep `parseCodesOk`. -/
lemma parseLoopFuel_codesOk (options : ParserOptions) (lines : List Str) :
    ∀ fuel (st : PLoopState), parseCodesOk st.output →
      ∀ r, parseLoopFuel options lines fuel st = some r → parseCodesOk r := by
  intro fuel
  induction fuel with
  | zero =>
      intro st h r hr
      unfold parseLoopFuel at hr
      rcases htext : st.text with _ | _
      · rw [htext] at hr
        simp only [Option.some.injEq] at hr
        subst hr
        exact finalizeParse_codesOk options lines h
      · rw [htext] at hr; cases hr
  | succ fuel ih =>
      intro st h r hr
      unfold parseLoopFuel at hr
      rcases htext : st.text with _ | _
      · rw [htext] at hr
        simp only [Option.some.injEq] at hr
        subst hr
        exact finalizeParse_codesOk options lines h
      · rw [htext] at hr
        exact ih _ (stepOnce_codesOk options lines h) r hr

/-- Each loop step strictly shrinks the remaining text. -/
lemma stepOnce_text_shrinks (options : ParserOptions) (lines : List Str)
    (st : PLoopState) (h : st.text ≠ []) :
    (stepOnce options lines st).text.length < st.text.length := by
  unfold stepOnce
  dsimp only
  split
  · rename_i heq
    exact absurd heq h
  · rename_i c rest heq
    rw [heq]
    have key : ∀ (st' : PLoopState) (k : Nat), st'.text = c :: rest → 1 ≤ k →
        (advanceBy st' k).text.length < (c :: rest).length := by
      intro st' k htext' hk
      rw [advanceBy_text, htext', List.length_drop]
      simp only [List.length_cons]
      omega
    have hdrop : ∀ (st' : PLoopState) (x : Char), st'.text = c :: rest →
        (stepDefaultTail options lines st' x).text.length < (c :: rest).length := by
      intro st' x htext'
      rw [stepDefaultTail_text, htext']
      simp only [List.length_drop, List.length_cons]
      omega
    split
    · split
      · refine key _ _ rfl ?_
        rename_i hcond
        simp only [Bool.and_eq_true, decide_eq_true_eq] at hcond
        omega
      · exact key _ 1 rfl le_rfl
    · split
      · refine key _ _ ((flushToken_text options lines st _ _).trans heq) ?_
        rename_i hcond
        simp only [Bool.and_eq_true, decide_eq_true_eq] at hcond
        omega
      · split
        · refine key _ _ ((flushToken_text options lines st _ _).trans heq) ?_
          rename_i hcond
          simp only [Bool.and_eq_true, decide_eq_true_eq] at hcond
          omega
        · split
          · refine key _ _ ((flushToken_text options lines st _ _).trans heq) ?_
            rename_i hcond
            simp only [Bool.and_eq_true, decide_eq_true_eq] at hcond
            omega
          · split
            · split
              · refine key _ _ ((flushToken_text options lines st _ _).trans heq) ?_
                rename_i hcond
                simp only [Bool.and_eq_true, decide_eq_true_eq] at hcond
                omega
              · exact hdrop st _ heq
            · exact hdrop st _ heq

/-- The fuelled loop returns a result whenever the fuel covers the remaining
text length. -/
lemma parseLoopFuel_isSome (options : ParserOptions) (lines : List Str) :
    ∀ fuel (st : PLoopState), st.text.length ≤ fuel →
      (parseLoopFuel options lines fuel st).isSome = true := by
  intro fuel
  induction fuel with
  | zero =>
      intro st hlen
      unfold parseLoopFuel
      rcases htext : st.text with _ | _
      · simp
      · rw [htext] at hlen
        simp only [List.length_cons] at hlen
        omega
  | succ fuel ih =>
      intro st hlen
      unfold parseLoopFuel
      rcases htext : st.text with _ | ⟨c, rest⟩
      · simp
      · simp only
        refine ih _ ?_
        have hshrink := stepOnce_text_shrinks options lines st (by rw [htext]; simp)
        rw [htext] at hshrink hlen
        simp only [List.length_cons] at hshrink hlen
        omega

/-! ## C9 and C10 -/

/-- Every issue of a parsed file carries a recoverable parse code. -/
lemma parseLayerFile_codesOk (options : ParserOptions) :
    ∀ i ∈ (parseLayerFile options).issues, i.code ∈ recoverableCodes := by
  intro i hi
  unfold parseLayerFile at hi
  dsimp only at hi
  rcases hres : parseLoopFuel options (splitLines options.text)
      options.text.length (initParseState options) with _ | r
  · rw [hres] at hi
    simp at hi
  · rw [hres] at hi
    simp only [Option.getD_some] at hi
    exact parseLoopFuel_codesOk options (splitLines options.text)
      options.text.length (initParseState options)
      (by intro i hi; simp [initParseState] at hi)
      r hres i hi

/-- C9: `parseLayerFile` is total — the scanning loop consumes the whole input
within `text.length` steps for every input text and every parser
configuration (so the `getD` fallback of `parseLayerFile` is never taken) —
and every issue it reports carries one of the recoverable parse codes
`E010`/`E020`/`E110`/`E111`; the embedding returns issues rather than
throwing on every malformed input. -/
theorem c9_parser_total_and_recoverable (options : ParserOptions) :
    (parseLoopFuel options (splitLines options.text) options.text.length
        (initParseState options)).isSome = true ∧
    ∀ i ∈ (parseLayerFile options).issues, i.code ∈ recoverableCodes := by
  constructor
  · exact parseLoopFuel_isSome options (splitLines options.text)
      options.text.length (initParseState options) le_rfl
  · exact parseLayerFile_codesOk options

/-- C9 witness: on the concrete unclosed-grouping input the loop terminates
and the single reported issue is the recoverable `E010`. -/
theorem c9_witness :
    (parseLoopFuel { fixOptsPlain with text := "[INTENT-1".data }
        (splitLines "[INTENT-1".data) ("[INTENT-1".data).length
        (initParseState { fixOptsPlain with text := "[INTENT-1".data })).isSome = true ∧
    "E010".data ∈ recoverableCodes := by
  refine ⟨(c9_parser_total_and_recoverable
    { fixOptsPlain with text := "[INTENT-1".data }).1, ?_⟩
  have h := (c9_parser_total_and_recoverable
    { fixOptsPlain with text := "[INTENT-1".data }).2
  have hcode :
      (parseLayerFile { fixOptsPlain with text := "[INTENT-1".data }).issues.map
        (fun i => i.code) = ["E010".data] := by decide
  have hmem :
      ∃ i ∈ (parseLayerFile { fixOptsPlain with text := "[INTENT-1".data }).issues,
        i.code = "E010".data := by
    rcases hiss : (parseLayerFile { fixOptsPlain with text := "[INTENT-1".data }).issues with
      _ | ⟨i, rest⟩
    · rw [hiss] at hcode; simp at hcode
    · rw [hiss] at hcode
      simp only [List.map_cons, List.cons.injEq] at hcode
      exact ⟨i, by simp, hcode.1⟩
  rcases hmem with ⟨i, hi, hci⟩
  have := h i hi
  rwa [hci] at this

/-- C10: a bare token flushed in definition context — outside any quote and
outside any grouping, with no marker level — that passes the global id-shape
rule and matches only the upstream (previous layer's) patterns is appended to
the references list, and the definitions list is unchanged. -/
theorem c10_bare_upstream_token_is_reference (raw normalized : Str) (line : Nat)
    (options : ParserOptions) (lines : List Str) (output : ParsedFile)
    (hraw : raw ≠ [])
    (hlayer : matchesAny options.layerIdPatterns normalized = false)
    (hup : matchesAny options.upstreamIdPatterns normalized = true)
    (hshape : globalIdValid normalized = true) :
    handleToken raw normalized line TokenContext.definition options lines output
        { inQuote := false, inGrouping := false } none =
      { output with
        references := output.references ++
          [{ id := normalized, raw := raw, line := line, resolution := none }] } := by
  unfold handleToken
  rw [handleTokenResolution_plain]
  simp only [hraw, if_neg, if_false, hlayer, hup, hshape,
    matchesAny_ne_nil hup, Bool.and_false, Bool.and_true, Bool.not_false,
    Bool.not_true, Bool.false_and, Bool.and_self]
  simp

/-- C10 witness: the prose mention `INTENT-1` in a downstream file — matching
only the upstream patterns — is emitted as a reference. -/
theorem c10_witness :
    handleToken "INTENT-1".data "INTENT-1".data 1 TokenContext.definition
        { filePath := "l1.md".data, text := [], layerIdPatterns := [capPat]
          upstreamIdPatterns := [intentPat], resolution := none
          grouping := fixGrouping }
        [[]] { definitions := [], references := [], issues := [] }
        { inQuote := false, inGrouping := false } none =
      { definitions := []
        references := [{ id := "INTENT-1".data, raw := "INTENT-1".data, line := 1
                         resolution := none }]
        issues := [] } := by
  have h := c10_bare_upstream_token_is_reference "INTENT-1".data "INTENT-1".data 1
    { filePath := "l1.md".data, text := [], layerIdPatterns := [capPat]
      upstreamIdPatterns := [intentPat], resolution := none
      grouping := fixGrouping }
    [[]] { definitions := [], references := [], issues := [] }
    (by decide) (by decide) (by decide) (by decide)
  simpa using h

/-! ## Supporting lemmas: reach computation -/

/-- Fold-preservation helper with membership of the folded element. -/
lemma foldl_preserve_mem {α β : Type} (Q : β → Prop) (g : β → α → β) (l : List α)
    (h : ∀ acc x, x ∈ l → Q acc → Q (g acc x)) :
    ∀ init, Q init → Q (l.foldl g init) := by
  induction l with
  | nil => intro init hi; simpa using hi
  | cons x xs ih =>
      intro init hi
      simp only [List.foldl_cons]
      exact ih (fun acc y hy hq => h acc y (List.mem_cons_of_mem x hy) hq) _
        (h init x (List.mem_cons_self x xs) hi)

/-- A max-fold never drops below its initial accumulator. -/
lemma le_foldl_max {α : Type} (f : α → Nat) (l : List α) :
    ∀ init, init ≤ l.foldl (fun t d => max t (f d)) init := by
  induction l with
  | nil => intro init; simp
  | cons x xs ih =>
      intro init
      simp only [List.foldl_cons]
      exact le_trans (Nat.le_max_left init (f x)) (ih (max init (f x)))

/-- A max-fold of values below a bound stays below the bound. -/
lemma foldl_max_lt {α : Type} (f : α → Nat) (l : List α) (bound : Nat) :
    ∀ init, init < bound → (∀ d ∈ l, f d < bound) →
      l.foldl (fun t d => max t (f d)) init < bound := by
  induction l with
  | nil => intro init hi _; simpa using hi
  | cons x xs ih =>
      intro init hi hall
      simp only [List.foldl_cons]
      refine ih _ ?_ (fun d hd => hall d (List.mem_cons_of_mem x hd))
      exact max_lt hi (hall x (List.mem_cons_self x xs))

/-- A successful association lookup exhibits a member entry. -/
lemma assocLookup_mem {κ α : Type} [DecidableEq κ] :
    ∀ (m : List (κ × α)) (k : κ) (v : α), assocLookup m k = some v → (k, v) ∈ m := by
  intro m
  induction m with
  | nil => intro k v h; simp [assocLookup] at h
  | cons p rest ih =>
      intro k v h
      rcases p with ⟨k', v'⟩
      unfold assocLookup at h
      by_cases hk : k' = k
      · subst hk
        rw [if_pos rfl] at h
        injection h with h
        subst h
        exact List.mem_cons_self _ _
      · simp only [if_neg hk] at h
        exact List.mem_cons_of_mem _ (ih k v h)

/-- Reach never moves backwards: the result dominates the starting layer. -/
lemma resolveReach_ge (edges : List (Nat × List (Str × List Str))) :
    ∀ (fuel layerIndex : Nat) (id : Str),
      layerIndex ≤ resolveReach edges fuel layerIndex id := by
  intro fuel
  induction fuel with
  | zero => intro li _; exact le_rfl
  | succ fuel ih =>
      intro li id
      unfold resolveReach
      split
      · exact le_rfl
      · split
        · exact le_rfl
        · split
          · exact le_rfl
          · exact le_foldl_max _ _ li

/-- Reach stays below the layer count provided all boundary keys do. -/
lemma resolveReach_lt (edges : List (Nat × List (Str × List Str))) (bound : Nat)
    (hkeys : ∀ p ∈ edges, p.1 < bound) :
    ∀ (fuel layerIndex : Nat) (id : Str), layerIndex < bound →
      resolveReach edges fuel layerIndex id < bound := by
  intro fuel
  induction fuel with
  | zero => intro li _ hli; exact hli
  | succ fuel ih =>
      intro li id hli
      unfold resolveReach
      split
      · exact hli
      · rename_i layerEdges hlook
        have hnext : li + 1 < bound :=
          hkeys _ (assocLookup_mem edges (li + 1) layerEdges hlook)
        split
        · exact hli
        · split
          · exact hli
          · exact foldl_max_lt _ _ bound li hli (fun d _ => ih (li + 1) d hnext)

/-- Members of a `setAssoc` result are old members or the inserted pair. -/
lemma mem_setAssoc {κ α : Type} [DecidableEq κ] (m : List (κ × α)) (k : κ) (v : α) :
    ∀ p ∈ setAssoc m k v, p ∈ m ∨ p = (k, v) := by
  intro p hp
  unfold setAssoc at hp
  split at hp
  · rcases List.mem_map.mp hp with ⟨q, hq, hfq⟩
    by_cases hqk : q.1 = k
    · right
      rw [← hfq]
      simp [hqk]
    · left
      rw [← hfq]
      simpa [hqk] using hq
  · rcases List.mem_append.mp hp with h | h
    · exact Or.inl h
    · simp only [List.mem_singleton] at h
      exact Or.inr h

/-- Every record of `reachByIdOf` satisfies the monotone-bounds invariant. -/
lemma reachByIdOf_bounds (parsedLayers : List ParsedLayer)
    (edges : List (Nat × List (Str × List Str)))
    (hkeys : ∀ p ∈ edges, p.1 < parsedLayers.length) :
    ∀ p ∈ reachByIdOf parsedLayers edges,
      p.2.origin ≤ p.2.terminal ∧ p.2.terminal < parsedLayers.length := by
  unfold reachByIdOf
  refine foldl_preserve_mem
    (fun (acc : List (Str × ReachRecord)) =>
      ∀ p ∈ acc, p.2.origin ≤ p.2.terminal ∧ p.2.terminal < parsedLayers.length)
    _ _ ?_ [] (by simp)
  intro acc li hli hacc
  have hliL : li < parsedLayers.length := List.mem_range.mp hli
  refine foldl_preserve
    (fun (acc : List (Str × ReachRecord)) =>
      ∀ p ∈ acc, p.2.origin ≤ p.2.terminal ∧ p.2.terminal < parsedLayers.length)
    _ _ ?_ acc hacc
  intro acc2 tok hacc2 p hp
  rcases mem_setAssoc acc2 tok.id _ p hp with h | h
  · exact hacc2 p h
  · subst h
    refine ⟨resolveReach_ge edges _ li tok.id, ?_⟩
    exact resolveReach_lt edges parsedLayers.length hkeys _ li tok.id hliL

/-- Every boundary index selected for validation is a configured layer index. -/
lemma pairsToValidate_lt (config : TraceValidatorConfig) (layer : Option Str) :
    ∀ k ∈ pairsToValidate config (resolveLayerIndex config layer),
      k < config.layers.length := by
  intro k hk
  unfold pairsToValidate at hk
  rcases hidx : resolveLayerIndex config layer with _ | li <;> rw [hidx] at hk
  · simp only [List.mem_filter, List.mem_range] at hk
    exact hk.1
  · have hlt : li < config.layers.length := by
      unfold resolveLayerIndex at hidx
      rcases layer with _ | name
      · simp at hidx
      · replace hidx :
            config.layers.findIdx? (fun entry => decide (entry.name = name)) = some li :=
          hidx
        exact (List.findIdx?_eq_some_iff_findIdx_eq.mp hidx).1
    dsimp only at hk
    split at hk
    · simp only [List.mem_singleton] at hk
      rw [hk]
      exact hlt
    · simp at hk

/-- `updateAt` preserves list length. -/
lemma updateAt_length {α : Type} :
    ∀ (l : List α) (i : Nat) (f : α → α), (updateAt l i f).length = l.length := by
  intro l
  induction l with
  | nil => intro i f; rfl
  | cons x xs ih =>
      intro i f
      cases i with
      | zero => rfl
      | succ n => simp [updateAt, ih]

/-- The parse phase keeps one `ParsedLayer` per configured layer. -/
lemma vtParseState_layers_length (rootPath : Str) (config : TraceValidatorConfig)
    (collection : LayerFileCollection) (fsys : Str → Str)
    (options : ValidationOptions) (resolutionOpt : Option ResolutionLookup) :
    (vtParseState rootPath config collection fsys options resolutionOpt).parsedLayers.length =
      config.layers.length := by
  unfold vtParseState parseAllFiles
  refine foldl_preserve
    (fun (st : ParseAccState) => st.parsedLayers.length = config.layers.length) _ _ ?_ _
    (by simp)
  intro st p hst
  dsimp only
  split
  · exact hst
  · refine foldl_preserve
      (fun (st : ParseAccState) => st.parsedLayers.length = config.layers.length) _ _ ?_ _ hst
    intro st2 file hst2
    unfold parseOneFile
    simpa [updateAt_length] using hst2

/-- C6: every record in the reach map of a run satisfies
`origin ≤ terminal < layerCount`, where `layerCount` is the number of
configured layers. -/
theorem c6_reach_monotone (rootPath : Str) (config : TraceValidatorConfig)
    (collection : LayerFileCollection) (fsys : Str → Str)
    (options : ValidationOptions) (resolutionOpt : Option ResolutionLookup) :
    ∀ p ∈ (validateTraceability rootPath config collection fsys options
        resolutionOpt).traceGraph.reachById,
      p.2.origin ≤ p.2.terminal ∧ p.2.terminal < config.layers.length := by
  intro p hp
  have hlen := vtParseState_layers_length rootPath config collection fsys options resolutionOpt
  have hkeys : ∀ q ∈ (vtPairs config options).map
      (fun k => (k, boundaryEdges
        (vtParseState rootPath config collection fsys options resolutionOpt).parsedLayers
        (layerRegexes config) k)),
      q.1 < (vtParseState rootPath config collection fsys options resolutionOpt).parsedLayers.length := by
    intro q hq
    rcases List.mem_map.mp hq with ⟨k, hk, hqe⟩
    rw [← hqe]
    rw [hlen]
    exact pairsToValidate_lt config options.layer k hk
  have hb := reachByIdOf_bounds
    (vtParseState rootPath config collection fsys options resolutionOpt).parsedLayers
    ((vtPairs config options).map
      (fun k => (k, boundaryEdges
        (vtParseState rootPath config collection fsys options resolutionOpt).parsedLayers
        (layerRegexes config) k)))
    hkeys p hp
  rw [hlen] at hb
  exact hb

/-- C6 witness: a concrete run whose reach map holds the record
`INTENT-1 ↦ {origin 0, terminal 1}`, satisfying `0 ≤ 1 < 2`. -/
theorem c6_witness :
    ("INTENT-1".data, ReachRecord.mk 0 1) ∈
      (validateTraceability "/r".data fixConfig fixCollection fsSelfAnnotated
        { layer := none } (some fixResolution)).traceGraph.reachById ∧
    (0 ≤ 1 ∧ 1 < fixConfig.layers.length) := by
  have hmem : ("INTENT-1".data, ReachRecord.mk 0 1) ∈
      (validateTraceability "/r".data fixConfig fixCollection fsSelfAnnotated
        { layer := none } (some fixResolution)).traceGraph.reachById := by decide
  exact ⟨hmem, c6_reach_monotone "/r".data fixConfig fixCollection fsSelfAnnotated
    { layer := none } (some fixResolution) _ hmem⟩

/-! ## Supporting lemmas: adjacency phase -/

/-- Unfolding of the issue list of a run into its three phases. -/
lemma validateTraceability_issues (rootPath : Str) (config : TraceValidatorConfig)
    (collection : LayerFileCollection) (fsys : Str → Str)
    (options : ValidationOptions) (resolutionOpt : Option ResolutionLookup) :
    (validateTraceability rootPath config collection fsys options resolutionOpt).issues =
      (vtParseState rootPath config collection fsys options resolutionOpt).issues
        ++ (vtPairs config options).flatMap
            (boundaryIssues rootPath
              (vtParseState rootPath config collection fsys options resolutionOpt).fileLines
              (vtGraph rootPath config collection fsys options resolutionOpt)
              (allowedLayer config (resolveLayerIndex config options.layer))
              (resolutionEnabledOf resolutionOpt))
        ++ phase3Issues rootPath config
            (vtParseState rootPath config collection fsys options resolutionOpt)
            (vtGraph rootPath config collection fsys options resolutionOpt)
            (allowedLayer config (resolveLayerIndex config options.layer))
            (resolutionEnabledOf resolutionOpt) := rfl

/-- Unfolding of the adjacency map of a run. -/
lemma vtGraph_adjacency (rootPath : Str) (config : TraceValidatorConfig)
    (collection : LayerFileCollection) (fsys : Str → Str)
    (options : ValidationOptions) (resolutionOpt : Option ResolutionLookup) :
    (vtGraph rootPath config collection fsys options resolutionOpt).adjacencyByLayer =
      (vtPairs config options).map (fun k =>
        (k, adjacencySnapshot
          (vtParseState rootPath config collection fsys options resolutionOpt).parsedLayers
          (layerRegexes config) k)) := rfl

/-- With no `--layer` scope every configured index is allowed. -/
lemma allowedLayer_none (config : TraceValidatorConfig) (i : Nat) :
    allowedLayer config none i = decide (i < config.layers.length) := rfl

/-- `resolveLayerIndex` of an absent scope name. -/
lemma resolveLayerIndex_none (config : TraceValidatorConfig) :
    resolveLayerIndex config none = none := rfl

/-- Key membership distributes over association-list append. -/
lemma containsKey_append {κ α : Type} [DecidableEq κ] (m m' : List (κ × α)) (k : κ) :
    containsKey (m ++ m') k = (containsKey m k || containsKey m' k) := by
  induction m with
  | nil => simp [containsKey]
  | cons p rest ih => simp [containsKey, ih, Bool.or_assoc]

/-- `addToMapIfMissing` makes its own key present. -/
lemma containsKey_add_self (m : List (Str × TokenWithSource)) (t : TokenWithSource) :
    containsKey (addToMapIfMissing m t) t.id = true := by
  unfold addToMapIfMissing
  split
  · assumption
  · simp [containsKey_append, containsKey]

/-- `addToMapIfMissing` keeps every present key present. -/
lemma containsKey_add_mono (m : List (Str × TokenWithSource)) (t : TokenWithSource)
    (k : Str) (h : containsKey m k = true) :
    containsKey (addToMapIfMissing m t) k = true := by
  unfold addToMapIfMissing
  split
  · exact h
  · simp [containsKey_append, h]

/-- A fold of `addToMapIfMissing` keeps every present key present. -/
lemma containsKey_foldl_add_mono (l : List TokenWithSource)
    (acc : List (Str × TokenWithSource)) (k : Str) (h : containsKey acc k = true) :
    containsKey (l.foldl addToMapIfMissing acc) k = true := by
  refine foldl_preserve (fun m => containsKey m k = true) _ l ?_ acc h
  intro m t hm
  exact containsKey_add_mono m t k hm

/-- Every listed definition id ends up a key of the upstream definition map. -/
lemma definedUpstream_contains (parsedLayers : List ParsedLayer) (k : Nat)
    (t : TokenWithSource)
    (ht : t ∈ (parsedLayers.getD (k - 1) ⟨[], []⟩).definitions) :
    containsKey (definedUpstreamOf parsedLayers k) t.id = true := by
  unfold definedUpstreamOf
  suffices h : ∀ (l : List TokenWithSource) acc, t ∈ l →
      containsKey (l.foldl addToMapIfMissing acc) t.id = true from
    h _ [] ht
  intro l
  induction l with
  | nil => intro acc h; simp at h
  | cons x xs ih =>
      intro acc h
      rcases List.mem_cons.mp h with h | h
      · subst h
        simp only [List.foldl_cons]
        exact containsKey_foldl_add_mono xs _ _ (containsKey_add_self acc t)
      · simp only [List.foldl_cons]
        exact ih _ h

/-- The filtered fold building the downstream reference map keeps keys. -/
lemma containsKey_foldl_refAdd_mono (pats : List (Str → Bool))
    (l : List TokenWithSource) (acc : List (Str × TokenWithSource)) (k : Str)
    (h : containsKey acc k = true) :
    containsKey
      (l.foldl (fun m t => if matchesAny pats t.id then addToMapIfMissing m t else m) acc)
      k = true := by
  refine foldl_preserve (fun m => containsKey m k = true) _ l ?_ acc h
  intro m t hm
  split
  · exact containsKey_add_mono m t k hm
  · exact hm

/-- Every matching downstream reference id ends up a key of the downstream
reference map. -/
lemma referenced_contains (parsedLayers : List ParsedLayer)
    (regexes : List (List (Str → Bool))) (k : Nat) (t : TokenWithSource)
    (ht : t ∈ (parsedLayers.getD k ⟨[], []⟩).references)
    (hm : matchesAny (regexes.getD (k - 1) []) t.id = true) :
    containsKey (referencedInDownstreamOf parsedLayers regexes k) t.id = true := by
  unfold referencedInDownstreamOf
  suffices h : ∀ (l : List TokenWithSource) acc, t ∈ l →
      containsKey
        (l.foldl (fun m t => if matchesAny (regexes.getD (k - 1) []) t.id
          then addToMapIfMissing m t else m) acc) t.id = true from
    h _ [] ht
  intro l
  induction l with
  | nil => intro acc h; simp at h
  | cons x xs ih =>
      intro acc h
      rcases List.mem_cons.mp h with h | h
      · subst h
        simp only [List.foldl_cons, hm, if_pos]
        exact containsKey_foldl_refAdd_mono _ xs _ _ (containsKey_add_self acc t)
      · simp only [List.foldl_cons]
        exact ih _ h

/-- A present key has a successful lookup. -/
lemma containsKey_exists_lookup {κ α : Type} [DecidableEq κ] :
    ∀ (m : List (κ × α)) (k : κ), containsKey m k = true →
      ∃ v, assocLookup m k = some v := by
  intro m
  induction m with
  | nil => intro k h; simp [containsKey] at h
  | cons p rest ih =>
      intro k h
      rcases p with ⟨k', v'⟩
      unfold containsKey at h
      unfold assocLookup
      by_cases hk : k' = k
      · exact ⟨v', by rw [if_pos hk]⟩
      · rw [if_neg hk]
        refine ih k ?_
        simpa [hk] using h

/-- Insertion for the id-ascending sort preserves members. -/
lemma mem_insertPairAsc (x : Str × TokenWithSource) :
    ∀ (l : List (Str × TokenWithSource)) (p : Str × TokenWithSource),
      p ∈ insertPairAsc x l ↔ p = x ∨ p ∈ l := by
  intro l
  induction l with
  | nil => intro p; simp [insertPairAsc]
  | cons y ys ih =>
      intro p
      unfold insertPairAsc
      split
      · simp only [List.mem_cons, ih]
        tauto
      · simp only [List.mem_cons]

/-- The id-ascending sort preserves members. -/
lemma mem_sortPairsAsc :
    ∀ (l : List (Str × TokenWithSource)) (p : Str × TokenWithSource),
      p ∈ sortPairsAsc l ↔ p ∈ l := by
  intro l
  induction l with
  | nil => intro p; simp [sortPairsAsc]
  | cons x xs ih =>
      intro p
      unfold sortPairsAsc
      rw [mem_insertPairAsc, ih]
      simp

/-- Lookup in a key-tagged map of a nodup key list hits the tagged value. -/
lemma assocLookup_map_self {β : Type} (f : Nat → β) :
    ∀ (l : List Nat), l.Nodup → ∀ k ∈ l,
      assocLookup (l.map (fun x => (x, f x))) k = some (f k) := by
  intro l
  induction l with
  | nil => intro _ k hk; simp at hk
  | cons x xs ih =>
      intro hnd k hk
      simp only [List.map_cons]
      unfold assocLookup
      rcases List.mem_cons.mp hk with h | h
      · subst h
        rw [if_pos rfl]
      · have hx : x ≠ k := by
          rintro rfl
          exact (List.nodup_cons.mp hnd).1 h
        rw [if_neg hx]
        exact ih (List.nodup_cons.mp hnd).2 k h

/-- The selected boundary list is duplicate-free. -/
lemma pairsToValidate_nodup (config : TraceValidatorConfig) (idx : Option Nat) :
    (pairsToValidate config idx).Nodup := by
  unfold pairsToValidate
  rcases idx with _ | li
  · exact (List.nodup_range _).filter _
  · dsimp only
    split
    · exact List.nodup_singleton li
    · exact List.nodup_nil

/-- Every in-range positive index is a selected boundary of a full run. -/
lemma mem_vtPairs (config : TraceValidatorConfig) (options : ValidationOptions)
    (hlayer : options.layer = none) (k : Nat) (hk0 : 0 < k)
    (hkL : k < config.layers.length) : k ∈ vtPairs config options := by
  unfold vtPairs
  rw [hlayer, resolveLayerIndex_none]
  unfold pairsToValidate
  simp only [List.mem_filter, List.mem_range, decide_eq_true_eq]
  exact ⟨hkL, hk0⟩

/-- Parse issues of a whole run carry recoverable parse codes. -/
lemma vtParseState_codes (rootPath : Str) (config : TraceValidatorConfig)
    (collection : LayerFileCollection) (fsys : Str → Str)
    (options : ValidationOptions) (resolutionOpt : Option ResolutionLookup) :
    ∀ i ∈ (vtParseState rootPath config collection fsys options resolutionOpt).issues,
      i.code ∈ recoverableCodes := by
  unfold vtParseState parseAllFiles
  refine foldl_preserve
    (fun (st : ParseAccState) => ∀ i ∈ st.issues, i.code ∈ recoverableCodes) _ _ ?_ _
    (by simp)
  intro st p hst
  dsimp only
  split
  · exact hst
  · refine foldl_preserve
      (fun (st : ParseAccState) => ∀ i ∈ st.issues, i.code ∈ recoverableCodes) _ _ ?_ _ hst
    intro st2 file hst2
    unfold parseOneFile
    intro i hi
    simp only [List.mem_append] at hi
    rcases hi with hi | hi
    · exact hst2 i hi
    · exact parseLayerFile_codesOk _ i hi

/-- Boundary issues are `E030`, or `E101` when resolution is disabled. -/
lemma boundaryIssues_codes (rootPath : Str)
    (fileLines : List (Str × List Str)) (graph : TraceGraph)
    (allowed : Nat → Bool) (resolutionEnabled : Bool) (k : Nat) :
    ∀ i ∈ boundaryIssues rootPath fileLines graph allowed resolutionEnabled k,
      i.code = "E030".data ∨ (resolutionEnabled = false ∧ i.code = "E101".data) := by
  intro i hi
  unfold boundaryIssues at hi
  split at hi
  · simp at hi
  · split at hi
    · simp at hi
    · split at hi
      · simp at hi
      · rcases List.mem_append.mp hi with h | h
        · rcases List.mem_map.mp h with ⟨p, _, hpe⟩
          rw [← hpe]
          exact Or.inl rfl
        · cases hre : resolutionEnabled
          · rw [hre] at h
            simp only [Bool.false_eq_true, if_false] at h
            rcases List.mem_map.mp h with ⟨p, _, hpe⟩
            rw [← hpe]
            exact Or.inr ⟨rfl, rfl⟩
          · rw [hre] at h
            simp at h

/-- Phase-3 issues carry only the resolution codes `E211`/`E220`. -/
lemma phase3Issues_codes (rootPath : Str) (config : TraceValidatorConfig)
    (pstate : ParseAccState) (graph : TraceGraph) (allowed : Nat → Bool)
    (resolutionEnabled : Bool) :
    ∀ i ∈ phase3Issues rootPath config pstate graph allowed resolutionEnabled,
      i.code = "E211".data ∨ i.code = "E220".data := by
  intro i hi
  unfold phase3Issues at hi
  split at hi
  · simp at hi
  · rcases List.mem_flatMap.mp hi with ⟨li, _, hi2⟩
    rcases List.mem_flatMap.mp hi2 with ⟨tok, _, hi3⟩
    rcases hres : tok.resolution with _ | r <;> rw [hres] at hi3
    · simp at hi3
    · dsimp only at hi3
      split at hi3
      · simp at hi3
      · split at hi3
        · simp only [List.mem_singleton] at hi3
          subst hi3
          exact Or.inl rfl
        · split at hi3
          · simp at hi3
          · split at hi3
            · simp at hi3
            · simp only [List.mem_singleton] at hi3
              subst hi3
              exact Or.inr rfl

/-- Recoverable parse codes are never `E101`. -/
lemma recoverable_ne_E101 {c : Str} (h : c ∈ recoverableCodes) :
    c ≠ "E101".data := by
  unfold recoverableCodes at h
  simp only [List.mem_cons, List.not_mem_nil, or_false] at h
  rcases h with h | h | h | h <;> rw [h] <;> decide

/-! ## C5 and C7 -/

/-- C5: at any boundary `(k-1, k)` of a full run — with resolution enabled or
disabled — every downstream reference occurrence whose id matches the
upstream layer's patterns but is absent from the upstream definition ids
yields an `UnknownUpstreamReference` issue naming that id in the run's
output. -/
theorem c5_unknown_upstream_reported (rootPath : Str)
    (config : TraceValidatorConfig) (collection : LayerFileCollection)
    (fsys : Str → Str) (options : ValidationOptions)
    (resolutionOpt : Option ResolutionLookup)
    (hlayer : options.layer = none) (k : Nat) (hk0 : 0 < k)
    (hkL : k < config.layers.length) (t : TokenWithSource)
    (ht : t ∈ ((vtParseState rootPath config collection fsys options
        resolutionOpt).parsedLayers.getD k ⟨[], []⟩).references)
    (hm : matchesAny ((layerRegexes config).getD (k - 1) []) t.id = true)
    (hundef : containsKey
        (definedUpstreamOf
          (vtParseState rootPath config collection fsys options resolutionOpt).parsedLayers k)
        t.id = false) :
    ∃ issue ∈ (validateTraceability rootPath config collection fsys options
        resolutionOpt).issues,
      issue.code = "E030".data ∧
      issue.message = "UnknownUpstreamReference: ".data ++ t.id := by
  set P := (vtParseState rootPath config collection fsys options resolutionOpt).parsedLayers
    with hP
  have hck : containsKey (referencedInDownstreamOf P (layerRegexes config) k) t.id = true :=
    referenced_contains P (layerRegexes config) k t ht hm
  obtain ⟨v, hv⟩ := containsKey_exists_lookup _ _ hck
  have hvmem : (t.id, v) ∈ referencedInDownstreamOf P (layerRegexes config) k :=
    assocLookup_mem _ _ _ hv
  have hunk : (t.id, v) ∈ (adjacencySnapshot P (layerRegexes config) k).unknownReferences := by
    unfold adjacencySnapshot
    dsimp only
    rw [mem_sortPairsAsc]
    rw [List.mem_filter]
    exact ⟨hvmem, by simp [hundef]⟩
  have hkp : k ∈ vtPairs config options := mem_vtPairs config options hlayer k hk0 hkL
  have hlook : assocLookup
      (vtGraph rootPath config collection fsys options resolutionOpt).adjacencyByLayer k =
      some (adjacencySnapshot P (layerRegexes config) k) := by
    rw [vtGraph_adjacency]
    exact assocLookup_map_self _ _
      (by unfold vtPairs; exact pairsToValidate_nodup config _) k hkp
  refine ⟨createIssue "E030".data ("UnknownUpstreamReference: ".data ++ t.id)
      (resolveIssuePath rootPath v.filePath) v.line
      ((assocLookup (vtParseState rootPath config collection fsys options
        resolutionOpt).fileLines v.filePath).getD []),
    ?_, rfl, rfl⟩
  rw [validateTraceability_issues]
  refine List.mem_append.mpr (Or.inl (List.mem_append.mpr (Or.inr ?_)))
  refine List.mem_flatMap.mpr ⟨k, hkp, ?_⟩
  unfold boundaryIssues
  rw [hlayer, resolveLayerIndex_none, hlook]
  simp only [allowedLayer_none]
  rw [decide_eq_true hkL, decide_eq_true (by omega : k - 1 < config.layers.length)]
  simp only [Bool.not_true, Bool.false_eq_true, if_false]
  refine List.mem_append.mpr (Or.inl ?_)
  exact List.mem_map.mpr ⟨(t.id, v), hunk, rfl⟩

/-- C5 witness: scenario B — the grouping `[INTENT-1, INTENT-999]` with only
`INTENT-1` defined upstream yields the `UnknownUpstreamReference` naming
`INTENT-999`, and the run's whole issue list is exactly that one issue. -/
theorem c5_witness :
    (∃ issue ∈ (validateTraceability "/r".data fixConfig fixCollection fsScenarioB
        { layer := none } none).issues,
      issue.code = "E030".data ∧
      issue.message = "UnknownUpstreamReference: ".data ++ "INTENT-999".data) ∧
    (validateTraceability "/r".data fixConfig fixCollection fsScenarioB
        { layer := none } none).issues.map (fun i => (i.code, i.message)) =
      [("E030".data, "UnknownUpstreamReference: INTENT-999".data)] := by
  constructor
  · exact c5_unknown_upstream_reported "/r".data fixConfig fixCollection fsScenarioB
      { layer := none } none rfl 1 (by decide) (by decide)
      { id := "INTENT-999".data, raw := "INTENT-999".data, line := 1
        filePath := "l1.md".data, offset := none, length := none, resolution := none }
      (by decide) (by decide) (by decide)
  · decide

/-- C7: `UnmappedUpstreamId` gating.  With resolution enabled no `E101` issue
is ever emitted; with resolution disabled, a full run emits an `E101` issue
naming every upstream definition id that has no matching downstream
reference, at every boundary. -/
theorem c7_unmapped_upstream_gated (rootPath : Str)
    (config : TraceValidatorConfig) (collection : LayerFileCollection)
    (fsys : Str → Str) (options : ValidationOptions)
    (resolutionOpt : Option ResolutionLookup) :
    ((resolutionEnabledOf resolutionOpt = true) →
      ∀ issue ∈ (validateTraceability rootPath config collection fsys options
          resolutionOpt).issues, issue.code ≠ "E101".data) ∧
    ((resolutionEnabledOf resolutionOpt = false) → options.layer = none →
      ∀ k, 0 < k → k < config.layers.length →
      ∀ t ∈ ((vtParseState rootPath config collection fsys options
          resolutionOpt).parsedLayers.getD (k - 1) ⟨[], []⟩).definitions,
        containsKey
          (referencedInDownstreamOf
            (vtParseState rootPath config collection fsys options resolutionOpt).parsedLayers
            (layerRegexes config) k) t.id = false →
        ∃ issue ∈ (validateTraceability rootPath config collection fsys options
            resolutionOpt).issues,
          issue.code = "E101".data ∧
          issue.message = "UnmappedUpstreamId: ".data ++ t.id) := by
  constructor
  · intro hen issue hiss
    rw [validateTraceability_issues] at hiss
    rcases List.mem_append.mp hiss with h | h
    · rcases List.mem_append.mp h with h | h
      · exact recoverable_ne_E101
          (vtParseState_codes rootPath config collection fsys options resolutionOpt issue h)
      · rcases List.mem_flatMap.mp h with ⟨k, _, hk⟩
        rcases boundaryIssues_codes rootPath _ _ _ _ k issue hk with hc | hc
        · rw [hc]; decide
        · rw [hen] at hc
          exact absurd hc.1 (by decide)
    · rcases phase3Issues_codes rootPath config _ _ _ _ issue h with hc | hc
      · rw [hc]; decide
      · rw [hc]; decide
  · intro hdis hlayer k hk0 hkL t ht hunref
    set P := (vtParseState rootPath config collection fsys options resolutionOpt).parsedLayers
      with hP
    have hck : containsKey (definedUpstreamOf P k) t.id = true :=
      definedUpstream_contains P k t ht
    obtain ⟨v, hv⟩ := containsKey_exists_lookup _ _ hck
    have hvmem : (t.id, v) ∈ definedUpstreamOf P k := assocLookup_mem _ _ _ hv
    have hmiss : (t.id, v) ∈ (adjacencySnapshot P (layerRegexes config) k).missingUpstream := by
      unfold adjacencySnapshot
      dsimp only
      rw [mem_sortPairsAsc]
      rw [List.mem_filter]
      exact ⟨hvmem, by simp [hunref]⟩
    have hkp : k ∈ vtPairs config options := mem_vtPairs config options hlayer k hk0 hkL
    have hlook : assocLookup
        (vtGraph rootPath config collection fsys options resolutionOpt).adjacencyByLayer k =
        some (adjacencySnapshot P (layerRegexes config) k) := by
      rw [vtGraph_adjacency]
      exact assocLookup_map_self _ _
        (by unfold vtPairs; exact pairsToValidate_nodup config _) k hkp
    refine ⟨createIssue "E101".data ("UnmappedUpstreamId: ".data ++ t.id)
        (resolveIssuePath rootPath v.filePath) v.line
        ((assocLookup (vtParseState rootPath config collection fsys options
          resolutionOpt).fileLines v.filePath).getD []),
      ?_, rfl, rfl⟩
    rw [validateTraceability_issues]
    refine List.mem_append.mpr (Or.inl (List.mem_append.mpr (Or.inr ?_)))
    refine List.mem_flatMap.mpr ⟨k, hkp, ?_⟩
    unfold boundaryIssues
    rw [hlayer, resolveLayerIndex_none, hlook]
    simp only [allowedLayer_none]
    rw [decide_eq_true hkL, decide_eq_true (by omega : k - 1 < config.layers.length)]
    simp only [Bool.not_true, Bool.false_eq_true, if_false]
    refine List.mem_append.mpr (Or.inr ?_)
    rw [hdis]
    simp only [Bool.false_eq_true, if_false]
    exact List.mem_map.mpr ⟨(t.id, v), hmiss, rfl⟩

/-- C7 witness: in the disabled-coverage scenario the unreferenced upstream
definition `INTENT-1` yields an `UnmappedUpstreamId` issue, and the run's
whole issue list is exactly that one issue. -/
theorem c7_witness :
    (∃ issue ∈ (validateTraceability "/r".data fixConfig fixCollection fsMissingRef
        { layer := none } none).issues,
      issue.code = "E101".data ∧
      issue.message = "UnmappedUpstreamId: ".data ++ "INTENT-1".data) ∧
    (validateTraceability "/r".data fixConfig fixCollection fsMissingRef
        { layer := none } none).issues.map (fun i => (i.code, i.message)) =
      [("E101".data, "UnmappedUpstreamId: INTENT-1".data)] := by
  constructor
  · exact (c7_unmapped_upstream_gated "/r".data fixConfig fixCollection fsMissingRef
      { layer := none } none).2 rfl rfl 1 (by decide) (by decide)
      { id := "INTENT-1".data, raw := "INTENT-1".data, line := 1
        filePath := "l0.md".data, offset := none, length := none, resolution := none }
      (by decide) (by decide)
  · decide

/-! ## Supporting lemmas: apply step -/

/-- Numeric offset of an edit (its call sites guarantee a `some`). -/
def offVal (e : ResolutionEdit) : Nat := e.offset.getD 0

/-- Numeric end of an edit's recorded range. -/
def endVal (e : ResolutionEdit) : Nat := e.offset.getD 0 + e.length.getD 0

/-- Insertion into the descending sort preserves members. -/
lemma mem_insertEditDesc (e : ResolutionEdit) :
    ∀ (l : List ResolutionEdit) (x : ResolutionEdit),
      x ∈ insertEditDesc e l ↔ x = e ∨ x ∈ l := by
  intro l
  induction l with
  | nil => intro x; simp [insertEditDesc]
  | cons f fs ih =>
      intro x
      unfold insertEditDesc
      split
      · simp only [List.mem_cons]
      · simp only [List.mem_cons, ih]
        tauto

/-- Insertion is a permutation with consing. -/
lemma insertEditDesc_perm (e : ResolutionEdit) :
    ∀ (l : List ResolutionEdit), (insertEditDesc e l).Perm (e :: l) := by
  intro l
  induction l with
  | nil => exact List.Perm.refl _
  | cons f fs ih =>
      unfold insertEditDesc
      split
      · exact List.Perm.refl _
      · exact (List.Perm.cons f ih).trans (List.Perm.swap e f fs)

/-- The descending sort permutes its input. -/
lemma sortEditsDesc_perm : ∀ (l : List ResolutionEdit), (sortEditsDesc l).Perm l := by
  intro l
  induction l with
  | nil => exact List.Perm.refl _
  | cons e es ih =>
      unfold sortEditsDesc
      exact (insertEditDesc_perm e (sortEditsDesc es)).trans (List.Perm.cons e ih)

/-- On all-`some` offsets, `offsetGtE` decides strict numeric order. -/
lemma offsetGtE_iff {a b : ResolutionEdit} (ha : a.offset.isSome = true)
    (hb : b.offset.isSome = true) : offsetGtE a b = true ↔ offVal a > offVal b := by
  rcases hoa : a.offset with _ | x
  · rw [hoa] at ha; simp at ha
  · rcases hob : b.offset with _ | y
    · rw [hob] at hb; simp at hb
    · simp [offsetGtE, offVal, hoa, hob]

/-- Insertion into a descending-sorted all-`some` list keeps it sorted. -/
lemma insertEditDesc_sorted (e : ResolutionEdit) :
    ∀ (l : List ResolutionEdit), e.offset.isSome = true →
      (∀ x ∈ l, x.offset.isSome = true) →
      l.Pairwise (fun a b => offVal a ≥ offVal b) →
      (insertEditDesc e l).Pairwise (fun a b => offVal a ≥ offVal b) := by
  intro l
  induction l with
  | nil => intro _ _ _; simp [insertEditDesc]
  | cons f fs ih =>
      intro he hall hs
      have hf : f.offset.isSome = true := hall f (List.mem_cons_self f fs)
      unfold insertEditDesc
      split
      · rename_i hgt
        have hef : offVal e > offVal f := (offsetGtE_iff he hf).mp hgt
        refine List.pairwise_cons.mpr ⟨?_, hs⟩
        intro b hb
        rcases List.mem_cons.mp hb with hb | hb
        · subst hb
          omega
        · have := (List.pairwise_cons.mp hs).1 b hb
          omega
      · rename_i hngt
        have hfe : offVal f ≥ offVal e := by
          have : ¬ offVal e > offVal f := fun hc =>
            hngt ((offsetGtE_iff he hf).mpr hc)
          omega
        refine List.pairwise_cons.mpr ⟨?_, ?_⟩
        · intro b hb
          rcases (mem_insertEditDesc e fs b).mp hb with hb | hb
          · subst hb
            exact hfe
          · exact (List.pairwise_cons.mp hs).1 b hb
        · exact ih he (fun x hx => hall x (List.mem_cons_of_mem f hx))
            (List.pairwise_cons.mp hs).2

/-- The descending sort of all-`some` edits is descending-sorted. -/
lemma sortEditsDesc_sorted :
    ∀ (l : List ResolutionEdit), (∀ x ∈ l, x.offset.isSome = true) →
      (sortEditsDesc l).Pairwise (fun a b => offVal a ≥ offVal b) := by
  intro l
  induction l with
  | nil => intro _; simp [sortEditsDesc]
  | cons e es ih =>
      intro hall
      unfold sortEditsDesc
      refine insertEditDesc_sorted e _ (hall e (List.mem_cons_self e es)) ?_
        (ih (fun x hx => hall x (List.mem_cons_of_mem e hx)))
      intro x hx
      exact hall x (List.mem_cons_of_mem e
        ((sortEditsDesc_perm es).subset hx))

/-- Weak descending order plus distinct keys gives strict descending order. -/
lemma pairwise_gt_of_ge_nodup :
    ∀ (l : List ResolutionEdit),
      l.Pairwise (fun a b => offVal a ≥ offVal b) → (l.map offVal).Nodup →
      l.Pairwise (fun a b => offVal a > offVal b) := by
  intro l
  induction l with
  | nil => intro _ _; simp
  | cons e es ih =>
      intro hs hnd
      simp only [List.map_cons, List.nodup_cons] at hnd
      refine List.pairwise_cons.mpr ⟨?_, ih (List.pairwise_cons.mp hs).2 hnd.2⟩
      intro b hb
      have hge := (List.pairwise_cons.mp hs).1 b hb
      have hne : offVal e ≠ offVal b := fun hc =>
        hnd.1 (hc ▸ List.mem_map.mpr ⟨b, hb, rfl⟩)
      omega

/-- Equal prefixes below a bound give equal slices ending below the bound. -/
lemma jsSlice_eq_of_take_eq {x y : Str} {bound o e : Nat}
    (hxy : x.take bound = y.take bound) (he : e ≤ bound) :
    jsSlice x o e = jsSlice y o e := by
  unfold jsSlice
  have hx : x.take e = y.take e := by
    have h1 : x.take e = (x.take bound).take e := by
      rw [List.take_take, min_eq_left he]
    have h2 : y.take e = (y.take bound).take e := by
      rw [List.take_take, min_eq_left he]
    rw [h1, h2, hxy]
  rw [hx]

/-- Taking below the splice point ignores the spliced tail. -/
lemma take_splice_eq (cur : Str) (o : Nat) (ho : o ≤ cur.length) (X : Str) :
    (cur.take o ++ X).take o = cur.take o := by
  have hlen : (cur.take o).length = o := by
    rw [List.length_take]
    omega
  calc (cur.take o ++ X).take o
      = (cur.take o ++ X).take (cur.take o).length := by rw [hlen]
    _ = cur.take o := List.take_left _ _

/-- Descending non-overlapping in-bounds edits are re-sliced against the
originally read text: the splice loop coincides with the spec-side loop that
slices every range from the original content. -/
lemma applyEditsGo_eq_fromOriginal (rel orig : Str) :
    ∀ (edits : List ResolutionEdit) (cur : Str) (acc : List ResolutionEdit)
      (bound : Nat),
      bound ≤ orig.length →
      cur.take bound = orig.take bound →
      (∀ e ∈ edits, ∃ o l, e.offset = some o ∧ e.length = some l ∧ o + l ≤ bound) →
      edits.Pairwise (fun a b => endVal b ≤ offVal a) →
      applyEditsGo rel cur edits acc = applyEditsFromOriginal rel orig cur edits acc := by
  intro edits
  induction edits with
  | nil => intro cur acc bound _ _ _ _; rfl
  | cons e rest ih =>
      intro cur acc bound hbound htake hall hpw
      obtain ⟨o, l, ho, hl, hole⟩ := hall e (List.mem_cons_self e rest)
      have hcurlen : bound ≤ cur.length := by
        have h1 : (cur.take bound).length = (orig.take bound).length := by rw [htake]
        rw [List.length_take, List.length_take] at h1
        omega
      have hslice : jsSlice cur o (o + l) = jsSlice orig o (o + l) :=
        jsSlice_eq_of_take_eq htake hole
      unfold applyEditsGo applyEditsFromOriginal
      rw [ho, hl]
      dsimp only
      rw [hslice]
      split
      · rfl
      · refine ih _ _ o (by omega) ?_ ?_ (List.pairwise_cons.mp hpw).2
        · have holen : o ≤ cur.length := by omega
          have h1 : (cur.take o ++ (e.newText ++ cur.drop (o + l))).take o = cur.take o := by
            exact take_splice_eq cur o holen _
          have h2 : cur.take o = orig.take o := by
            have hx : cur.take o = (cur.take bound).take o := by
              rw [List.take_take, min_eq_left (by omega : o ≤ bound)]
            have hy : orig.take o = (orig.take bound).take o := by
              rw [List.take_take, min_eq_left (by omega : o ≤ bound)]
            rw [hx, hy, htake]
          calc (cur.take o ++ e.newText ++ cur.drop (o + l)).take o
              = (cur.take o ++ (e.newText ++ cur.drop (o + l))).take o := by
                rw [List.append_assoc]
            _ = cur.take o := h1
            _ = orig.take o := h2
        · intro e' he'
          obtain ⟨o', l', ho', hl', _⟩ := hall e' (List.mem_cons_of_mem e he')
          refine ⟨o', l', ho', hl', ?_⟩
          have := (List.pairwise_cons.mp hpw).1 e' he'
          unfold endVal offVal at this
          rw [ho', hl', ho] at this
          simpa using this

/-- Every write performed by the apply step is a file whose complete edit
application succeeded: the per-file splice loop either runs to completion or
throws before that file's write. -/
lemma applyFilesGo_writes (rootPath : Str) (readFile : Str → Str) (dryRun : Bool) :
    ∀ (groups : List (Str × List ResolutionEdit)) (writes : List (Str × Str))
      (applied : List ResolutionEdit) (n : Nat) (p t : Str),
      (p, t) ∈ (applyFilesGo rootPath readFile dryRun groups writes applied n).1 →
      (p, t) ∈ writes ∨
      ∃ rel fileEdits applied2,
        (rel, fileEdits) ∈ groups ∧ p = pathResolve rootPath rel ∧ dryRun = false ∧
        applyEditsGo rel (readFile p) (sortEditsDesc fileEdits) [] =
          Except.ok (t, applied2) := by
  intro groups
  induction groups with
  | nil =>
      intro writes applied n p t h
      exact Or.inl h
  | cons g rest ih =>
      intro writes applied n p t h
      rcases g with ⟨rel, fileEdits⟩
      unfold applyFilesGo at h
      dsimp only at h
      rcases hgo : applyEditsGo rel (readFile (pathResolve rootPath rel))
          (sortEditsDesc fileEdits) [] with msg | res
      · rw [hgo] at h
        exact Or.inl h
      · rw [hgo] at h
        rcases res with ⟨newText, appliedFile⟩
        dsimp only at h
        split at h
        · rcases ih _ _ _ p t h with h' | ⟨rel', fe', ap', hmem, hpe, hdr, hok⟩
          · exact Or.inl h'
          · exact Or.inr ⟨rel', fe', ap', List.mem_cons_of_mem _ hmem, hpe, hdr, hok⟩
        · rcases ih _ _ _ p t h with h' | ⟨rel', fe', ap', hmem, hpe, hdr, hok⟩
          · rcases List.mem_append.mp h' with h'' | h''
            · exact Or.inl h''
            · simp only [List.mem_singleton, Prod.mk.injEq] at h''
              refine Or.inr ⟨rel, fileEdits, appliedFile, List.mem_cons_self _ _,
                h''.1, by simpa using (by assumption : ¬dryRun = true), ?_⟩
              rw [h''.1]
              rw [hgo, h''.2]
          · exact Or.inr ⟨rel', fe', ap', List.mem_cons_of_mem _ hmem, hpe, hdr, hok⟩

/-! ## C8 -/

/-- C8: the apply step of the resolution writer.  (1) Within a file, the
edits are processed as a permutation of themselves in strictly descending
offset order (for well-formed, distinct offsets).  (2) Because of that order,
each non-overlapping in-bounds edit is re-sliced against the originally read
text: the splice loop equals the spec-side loop slicing every recorded range
from the original content, and an empty slice makes both fail with the same
error.  (3) A file's content is written only if its complete edit application
succeeded — an aborted file is never written, partially edited or otherwise. -/
theorem c8_apply_order_and_atomicity :
    (∀ (fileEdits : List ResolutionEdit),
      (∀ e ∈ fileEdits, e.offset.isSome = true) →
      (fileEdits.map offVal).Nodup →
      (sortEditsDesc fileEdits).Perm fileEdits ∧
      (sortEditsDesc fileEdits).Pairwise (fun a b => offVal a > offVal b)) ∧
    (∀ (rel orig : Str) (fileEdits : List ResolutionEdit),
      (∀ e ∈ sortEditsDesc fileEdits,
        ∃ o l, e.offset = some o ∧ e.length = some l ∧ o + l ≤ orig.length) →
      (sortEditsDesc fileEdits).Pairwise (fun a b => endVal b ≤ offVal a) →
      applyEditsGo rel orig (sortEditsDesc fileEdits) [] =
        applyEditsFromOriginal rel orig orig (sortEditsDesc fileEdits) []) ∧
    (∀ (rootPath : Str) (readFile : Str → Str) (edits : List ResolutionEdit)
        (dryRun : Bool) (p t : Str),
      (p, t) ∈ (applyResolutionEdits rootPath readFile edits dryRun).1 →
      ∃ rel fileEdits applied,
        (rel, fileEdits) ∈ groupEditsByFile edits ∧ p = pathResolve rootPath rel ∧
        dryRun = false ∧
        applyEditsGo rel (readFile p) (sortEditsDesc fileEdits) [] =
          Except.ok (t, applied)) := by
  refine ⟨?_, ?_, ?_⟩
  · intro fileEdits hall hnd
    refine ⟨sortEditsDesc_perm fileEdits, ?_⟩
    refine pairwise_gt_of_ge_nodup _ (sortEditsDesc_sorted fileEdits hall) ?_
    exact (((sortEditsDesc_perm fileEdits).map offVal).symm).nodup hnd
  · intro rel orig fileEdits hall hpw
    exact applyEditsGo_eq_fromOriginal rel orig _ orig [] orig.length le_rfl
      (by rw [List.take_length]) hall hpw
  · intro rootPath readFile edits dryRun p t h
    unfold applyResolutionEdits at h
    split at h
    · simp at h
    · rcases applyFilesGo_writes rootPath readFile dryRun _ _ _ _ p t h with h' | h'
      · simp at h'
      · exact h'

/-- Concrete edits for the C8 witness: two disjoint in-bounds ranges in one
file, listed in ascending order so the sort must reverse them. -/
def witEditA : ResolutionEdit :=
  { filePath := "f.md".data, line := 1, offset := some 0, length := some 3
    oldText := [], newText := "XYZ".data, definitionId := "A-1".data
    oldResolution := none, newResolution := "intents".data }

/-- Second witness edit, at the higher offset. -/
def witEditB : ResolutionEdit :=
  { filePath := "f.md".data, line := 1, offset := some 4, length := some 2
    oldText := [], newText := "PQ".data, definitionId := "B-1".data
    oldResolution := none, newResolution := "intents".data }

/-- C8 witness: on the two-edit file the sort is the strict descending
permutation, the splice loop equals the slice-from-original loop, and the
single write performed corresponds to a fully successful application. -/
theorem c8_witness :
    ((sortEditsDesc [witEditA, witEditB]).Perm [witEditA, witEditB] ∧
      (sortEditsDesc [witEditA, witEditB]).Pairwise
        (fun a b => offVal a > offVal b)) ∧
    (applyEditsGo "f.md".data "abcdefg".data (sortEditsDesc [witEditA, witEditB]) [] =
      applyEditsFromOriginal "f.md".data "abcdefg".data "abcdefg".data
        (sortEditsDesc [witEditA, witEditB]) []) ∧
    (∃ rel fileEdits applied,
      (rel, fileEdits) ∈ groupEditsByFile [witEditA, witEditB] ∧
      "/r/f.md".data = pathResolve "/r".data rel ∧
      (false : Bool) = false ∧
      applyEditsGo rel ((fun _ => "abcdefg".data) "/r/f.md".data)
          (sortEditsDesc fileEdits) [] =
        Except.ok ("XYZdPQg".data, applied)) := by
  refine ⟨?_, ?_, ?_⟩
  · exact (c8_apply_order_and_atomicity.1 [witEditA, witEditB]
      (by decide) (by decide))
  · refine c8_apply_order_and_atomicity.2.1 "f.md".data "abcdefg".data
      [witEditA, witEditB] ?_ ?_
    · intro e he
      rw [show sortEditsDesc [witEditA, witEditB] = [witEditB, witEditA] from rfl] at he
      simp only [List.mem_cons, List.not_mem_nil, or_false] at he
      rcases he with h | h
      · exact ⟨4, 2, by rw [h]; rfl, by rw [h]; rfl, by simp [List.length]⟩
      · exact ⟨0, 3, by rw [h]; rfl, by rw [h]; rfl, by simp [List.length]⟩
    · decide
  · refine c8_apply_order_and_atomicity.2.2 "/r".data (fun _ => "abcdefg".data)
      [witEditA, witEditB] false "/r/f.md".data "XYZdPQg".data ?_
    decide

end DepMinder
